import Mathlib

/-!
# NeatFolder core: shallow embedding and verification

This file embeds the decision logic of the NeatFolder file organizer
(path categorization, target-path computation, the organize engine's
move/skip/stat bookkeeping, and the SQLite-backed history / undo / redo
controller of `DatabaseLogger`) as executable Lean definitions, and proves
or refutes the specified properties against them.

Modelling conventions:
* A filesystem is a `Finset String` of file paths plus a `Finset String` of
  directory paths; `mv src tgt` succeeds exactly when `src` exists and, at
  the path-set level, removes `src` and inserts `tgt` (overwriting any file
  already at `tgt`, as `mv` does).
* JavaScript strings are Lean `String`s; `filePath.split("/").pop()` is the
  substring after the final `/` (`lastSegment`), and
  `s.substring(0, s.lastIndexOf("/"))` is the prefix before it (`dirname`).
* JavaScript numbers holding sizes, ids and timestamps are `Nat`;
  `x ? a : b` truthiness on a numeric `x` is `if x = 0 then b else a`.
* The SQLite tables of `DatabaseLogger` are lists kept in insertion order;
  `id INTEGER PRIMARY KEY AUTOINCREMENT` is a `nextId` counter that never
  reuses ids, and `Date.now()` is a `clock` counter that strictly increases
  between inserts, so `ORDER BY timestamp DESC LIMIT 1` is the last
  matching element in insertion order.
-/

/-- JS `s.split("/").pop()`: the substring after the final `/`
(the whole string when it has no `/`). -/
def lastSegment (s : String) : String :=
  String.mk ((s.data.reverse.takeWhile (fun c => c ≠ '/')).reverse)

/-- JS `s.substring(0, s.lastIndexOf("/"))`: the prefix before the final `/`
(`""` when the string has no `/`, matching `substring(0, -1)`). -/
def dirname (s : String) : String :=
  String.mk (((s.data.reverse.dropWhile (fun c => c ≠ '/')).drop 1).reverse)

/-- JS `n.toString().padStart(2, "0")`. -/
def pad2 (n : Nat) : String :=
  if n < 10 then "0" ++ toString n else toString n

/-- JS `file.charAt(0).toLowerCase()`: one-character string holding the
lowercased first character, `""` on the empty string. -/
def lowerFirstChar (s : String) : String :=
  match s.data with
  | [] => ""
  | c :: _ => String.singleton c.toLower

/-- JS `s.toLowerCase()` (ASCII), character by character. -/
def lowerString (s : String) : String :=
  String.mk (s.data.map Char.toLower)

/-- JS `fileName.startsWith(".")`. -/
def startsWithDot (s : String) : Bool :=
  match s.data with
  | '.' :: _ => true
  | _ => false

/-- The grouping methods of `GroupingMethod` in types.ts. -/
inductive GroupingMethod where
  | extension
  | name
  | date
  | size
  deriving DecidableEq, Repr

/-- A JS `Date`, restricted to the two accessors the code calls.
`getMonth` is 0-based as in JS. -/
structure JsDate where
  getFullYear : Nat
  getMonth : Nat
  deriving DecidableEq, Repr

/-- The `{size, mtime}` stats record handed to the categorizers. -/
structure FileStats where
  size : Nat
  mtime : JsDate
  deriving DecidableEq, Repr

/-- `FILE_CATEGORIES` from constants.ts: each regex `/\.(e1|e2|...)$/i` is
the list of its alternatives; `pattern.test(filename)` is a
case-insensitive suffix test against `"." ++ ext`. -/
def FILE_CATEGORIES : List (List String × String) :=
  [ (["jpg", "jpeg", "png", "gif", "bmp", "webp", "svg", "ico"], "images"),
    (["pdf", "doc", "docx", "txt", "md", "rtf", "odt", "xlsx", "xls", "csv"], "documents"),
    (["mp3", "wav", "flac", "m4a", "aac", "ogg", "wma"], "audio"),
    (["mp4", "avi", "mkv", "mov", "wmv", "flv", "webm"], "video"),
    (["zip", "rar", "7z", "tar", "gz", "bz2"], "archives"),
    (["js", "ts", "py", "java", "cpp", "cs", "php", "html", "css", "json", "xml"], "code"),
    (["exe", "msi", "app", "dmg", "apk"], "executables"),
    (["ttf", "otf", "woff", "woff2"], "fonts") ]

/-- `pattern.test(filename)` for one `FILE_CATEGORIES` row. -/
def testCategoryPattern (exts : List String) (filename : String) : Bool :=
  exts.any (fun e => ("." ++ e).data.isSuffixOf (lowerString filename).data)

namespace FileCategorizationService

/-- `FileCategorizationService.getCategoryFromFile` (fcategorize.ts):
first matching pattern wins, `"others"` otherwise. The `categories`
parameter is the constructor argument. -/
def getCategoryFromFile (categories : List (List String × String))
    (filename : String) : String :=
  match categories with
  | [] => "others"
  | (pat, category) :: rest =>
    if testCategoryPattern pat filename then category
    else getCategoryFromFile rest filename

/-- `FileCategorizationService.getTargetDirectory` (fcategorize.ts).
The `switch` has no `extension` case, so that method returns the
category unchanged. -/
def getTargetDirectory (categories : List (List String × String))
    (file : String) (stats : FileStats) (method : GroupingMethod) : String :=
  let dir := getCategoryFromFile categories file
  match method with
  | .date =>
      dir ++ "/" ++ toString stats.mtime.getFullYear ++ "/" ++
        pad2 (stats.mtime.getMonth + 1)
  | .size =>
      if stats.size < 1024 * 1024 then "small"
      else if stats.size < 100 * 1024 * 1024 then "medium"
      else "large"
  | .name => lowerFirstChar file
  | .extension => dir

end FileCategorizationService

/-- Node `path.extname`, on the basename of the path: the substring from the
final `.` to the end, or `""` when the basename has no `.` or its only `.`
is its first character. -/
def extname (file : String) : String :=
  let r := (lastSegment file).data.reverse
  let pre := r.takeWhile (fun c => c ≠ '.')
  if pre.length + 1 = r.length then ""
  else if pre.length < r.length then String.mk ('.' :: pre.reverse)
  else ""

/-- JS uppercase-letter-or-digit test, `/[A-Z0-9]/`. -/
def isAZ09 (c : Char) : Bool :=
  ('A' ≤ c && c ≤ 'Z') || ('0' ≤ c && c ≤ '9')

namespace Fsystem

/-- `getCategoryFromFile` from the file-utils section of fsystem.ts:
lowercases the filename, then first `FILE_CATEGORIES` match wins. -/
def getCategoryFromFile (filename : String) : String :=
  FileCategorizationService.getCategoryFromFile FILE_CATEGORIES
    (lowerString filename)

/-- `getTargetDirectory` from the file-utils section of fsystem.ts. -/
def getTargetDirectory (file : String) (stats : FileStats)
    (method : GroupingMethod) : String :=
  match method with
  | .extension =>
      let ext := lowerString (String.mk ((extname file).data.drop 1))
      if ext = "" then "no-extension" else ext
  | .name =>
      match (lastSegment file).data with
      | [] => "0"
      | c :: _ =>
        let u := c.toUpper
        if isAZ09 u then String.singleton u else "other"
  | .date =>
      toString stats.mtime.getFullYear ++ "-" ++ pad2 (stats.mtime.getMonth + 1)
  | .size =>
      if stats.size < 10 * 1024 then "tiny (< 10KB)"
      else if stats.size < 100 * 1024 then "small (10-100KB)"
      else if stats.size < 1024 * 1024 then "medium (100KB-1MB)"
      else if stats.size < 10 * 1024 * 1024 then "large (1-10MB)"
      else if stats.size < 100 * 1024 * 1024 then "huge (10-100MB)"
      else "enormous (>100MB)"

end Fsystem

/-- `OrganizationOptions` from types.ts. `minSize`/`maxSize` are `Nat`s
whose JS truthiness makes `0` mean "no bound". -/
structure OrganizationOptions where
  method : GroupingMethod
  ignoreDotfiles : Bool
  recursive : Bool
  dryRun : Bool
  maxDepth : Nat
  minSize : Nat
  maxSize : Nat
  verbose : Bool
  deriving DecidableEq, Repr

/-- `FileMapping` from types.ts. -/
structure FileMapping where
  sourcePath : String
  targetPath : String
  size : Nat
  modifiedTime : JsDate
  deriving DecidableEq, Repr

/-- `OrganizationStats` from types.ts. -/
structure OrganizationStats where
  filesProcessed : Nat
  bytesMoved : Nat
  errors : List String
  skipped : List String
  created : Finset String
  deriving DecidableEq

/-- The all-zero stats each `NeatFolder` instance starts with. -/
def emptyStats : OrganizationStats :=
  { filesProcessed := 0, bytesMoved := 0, errors := [], skipped := [], created := ∅ }

/-- A `DirectoryMap` (`Map<string, Set<string>>`) in insertion order. -/
def DirMapT := List (String × List String)
  deriving DecidableEq

/-- `if (!map.has(dir)) map.set(dir, new Set()); map.get(dir).add(name)`. -/
def dmAdd (dm : DirMapT) (dir fname : String) : DirMapT :=
  match dm with
  | [] => [(dir, [fname])]
  | (d, ns) :: rest =>
    if d = dir then (d, if fname ∈ ns then ns else ns ++ [fname]) :: rest
    else (d, ns) :: dmAdd rest dir fname

/-- The file-path half of a filesystem plus the set of directories that
exist; `mkdir -p` inserts into `dirs`, `mv` rewrites `files`. -/
structure FSState where
  files : Finset String
  dirs : Finset String
  deriving DecidableEq

namespace NeatFolderV7

/-- `NeatFolder.getTargetDirectory` from neat-folder.ts (part_007 variant):
`extension` delegates to the file-utils categorizer, `date` hard-codes the
`documents/` prefix, `size` uses the 1 MiB / 100 MiB breakpoints, `name`
takes the lowercased first character. -/
def getTargetDirectory (method : GroupingMethod) (file : String)
    (stats : FileStats) : String :=
  match method with
  | .extension => Fsystem.getCategoryFromFile file
  | .name => lowerFirstChar file
  | .date =>
      "documents/" ++ toString stats.mtime.getFullYear ++ "/" ++
        pad2 (stats.mtime.getMonth + 1)
  | .size =>
      if stats.size < 1024 * 1024 then "small"
      else if stats.size < 100 * 1024 * 1024 then "medium"
      else "large"

/-- `NeatFolder.processFile` (part_007; the variant in src/neat-folder.ts is
identical except that it computes `fileName` after the size filters).
`meta` supplies the `stat` results; existence is membership in `files`.
Returns the mapping (or `none`) and the updated stats. -/
def processFile (opts : OrganizationOptions) (meta : String → FileStats)
    (files : Finset String) (filePath basePath : String)
    (st : OrganizationStats) : Option FileMapping × OrganizationStats :=
  if filePath ∉ files then (none, st)
  else
    let size := (meta filePath).size
    let fileName := lastSegment filePath
    if opts.minSize ≠ 0 ∧ size < opts.minSize then
      (none, { st with skipped := st.skipped ++ ["Size too small: " ++ filePath] })
    else if opts.maxSize ≠ 0 ∧ size > opts.maxSize then
      (none, { st with skipped := st.skipped ++ ["Size too large: " ++ filePath] })
    else if opts.ignoreDotfiles ∧ startsWithDot fileName then
      (none, { st with skipped := st.skipped ++ ["Dotfile ignored: " ++ filePath] })
    else
      let modifiedTime := (meta filePath).mtime
      let targetDir := getTargetDirectory opts.method fileName ⟨size, modifiedTime⟩
      let targetPath := basePath ++ "/" ++ targetDir ++ "/" ++ fileName
      (some ⟨filePath, targetPath, size, modifiedTime⟩, st)

/-- `NeatFolder.createFileMappings` (part_007): `processFile` on each scanned
path, keeping the non-`null` mappings in order. -/
def createFileMappings (opts : OrganizationOptions) (meta : String → FileStats)
    (files : Finset String) (basePath : String) :
    List String → OrganizationStats → List FileMapping × OrganizationStats
  | [], st => ([], st)
  | p :: rest, st =>
    match processFile opts meta files p basePath st with
    | (some m, st') =>
      let tail := createFileMappings opts meta files basePath rest st'
      (m :: tail.1, tail.2)
    | (none, st') => createFileMappings opts meta files basePath rest st'

/-- `NeatFolder.moveFile` (part_007): the directory map is tracked
unconditionally; outside dry-run, `ensureDirectoryExists` runs before the
`mv`, `created` is recorded after it, and an `mv` failure (missing source)
is caught and appended to `errors` without the processed counters moving.
The OS text after the source path in the error message is elided. -/
def moveFile (opts : OrganizationOptions) (m : FileMapping)
    (acc : FSState × DirMapT × OrganizationStats) :
    FSState × DirMapT × OrganizationStats :=
  let fsys := acc.1
  let dm := acc.2.1
  let st := acc.2.2
  let targetDir := dirname m.targetPath
  let fileName := lastSegment m.targetPath
  let dm' := dmAdd dm targetDir fileName
  if opts.dryRun then
    (fsys, dm', { st with filesProcessed := st.filesProcessed + 1,
                          bytesMoved := st.bytesMoved + m.size })
  else if m.sourcePath ∈ fsys.files then
    ({ files := insert m.targetPath (fsys.files.erase m.sourcePath),
       dirs := insert targetDir fsys.dirs },
     dm',
     { st with created := insert targetDir st.created,
               filesProcessed := st.filesProcessed + 1,
               bytesMoved := st.bytesMoved + m.size })
  else
    ({ fsys with dirs := insert targetDir fsys.dirs }, dm',
     { st with errors := st.errors ++ ["Failed to move " ++ m.sourcePath] })

/-- `NeatFolder.processFileMappings` (part_007): sequential loop of
`moveFile` over the mappings. -/
def processFileMappings (opts : OrganizationOptions) (ms : List FileMapping)
    (acc : FSState × DirMapT × OrganizationStats) :
    FSState × DirMapT × OrganizationStats :=
  ms.foldl (fun a m => moveFile opts m a) acc

/-- `NeatFolder.buildDirectoryStructure` (part_007) with the `basePath`
normalization branch. -/
def buildDirectoryStructure (basePath : String) (filePaths : List String) :
    DirMapT :=
  filePaths.foldl
    (fun dm filePath =>
      let d := dirname filePath
      let fileName := lastSegment filePath
      let dir :=
        if d = basePath then lastSegment basePath
        else if d.startsWith (basePath ++ "/") then
          lastSegment basePath ++ "/" ++ d.drop (basePath.length + 1)
        else lastSegment basePath
      dmAdd dm dir fileName)
    []

end NeatFolderV7

namespace NeatFolderV6

/-- `NeatFolder.moveFile` (part_006 variant): outside dry-run it creates the
target directory and records it in `created` before the `rename`, so a
failed rename still leaves the directory created; the failure is caught
and appended to `errors` and the counters are not incremented. -/
def moveFile (opts : OrganizationOptions) (m : FileMapping)
    (acc : FSState × DirMapT × OrganizationStats) :
    FSState × DirMapT × OrganizationStats :=
  let fsys := acc.1
  let dm := acc.2.1
  let st := acc.2.2
  let targetDir := dirname m.targetPath
  let fileName := lastSegment m.targetPath
  if opts.dryRun then
    (fsys, dmAdd dm targetDir fileName,
     { st with filesProcessed := st.filesProcessed + 1,
               bytesMoved := st.bytesMoved + m.size })
  else if m.sourcePath ∈ fsys.files then
    ({ files := insert m.targetPath (fsys.files.erase m.sourcePath),
       dirs := insert targetDir fsys.dirs },
     dm,
     { st with created := insert targetDir st.created,
               filesProcessed := st.filesProcessed + 1,
               bytesMoved := st.bytesMoved + m.size })
  else
    ({ fsys with dirs := insert targetDir fsys.dirs }, dm,
     { st with created := insert targetDir st.created,
               errors := st.errors ++ ["Failed to move " ++ m.sourcePath] })

/-- The inner sequential loop over one batch (part_006 `organize`). -/
def runSeq (opts : OrganizationOptions) (ms : List FileMapping)
    (acc : FSState × DirMapT × OrganizationStats) :
    FSState × DirMapT × OrganizationStats :=
  ms.foldl (fun a m => moveFile opts m a) acc

/-- `fileMappings.slice(i, i + chunkSize)` partitioning of the mapping list
(part_006 `organize`); `chunkSize = 0` never occurs (`Math.max(1, ...)`). -/
def chunksList (k : Nat) : List FileMapping → List (List FileMapping)
  | [] => []
  | l@(_ :: _) =>
    if k = 0 then [l]
    else l.take k :: chunksList k (l.drop k)
termination_by l => l.length
decreasing_by
  simp_all [List.length_drop]
  omega

/-- The batched move execution of part_006 `organize`: batch `N+1` starts
only after batch `N` finished, each batch running `moveFile` per mapping. -/
def runChunked (opts : OrganizationOptions) (k : Nat) (ms : List FileMapping)
    (acc : FSState × DirMapT × OrganizationStats) :
    FSState × DirMapT × OrganizationStats :=
  (chunksList k ms).foldl (fun a chunk => runSeq opts chunk a) acc

end NeatFolderV6

/-- Path-set effect of one forward `mv src tgt` (organize and redo): succeeds
exactly when the source exists, silently overwriting any file at the target. -/
def mvStep (fs : Finset String) (m : FileMapping) : Finset String :=
  if m.sourcePath ∈ fs then insert m.targetPath (fs.erase m.sourcePath) else fs

/-- Path-set effect of one undo move `mv tgt src`: performed only when the
target still exists, as `DatabaseLogger.undo` checks. -/
def mvUnstep (fs : Finset String) (m : FileMapping) : Finset String :=
  if m.targetPath ∈ fs then insert m.sourcePath (fs.erase m.targetPath) else fs

/-- Forward move pass over a mapping list, in original order (the move loop
of `organize` and of `DatabaseLogger.redo`). -/
def moveAll (ms : List FileMapping) (fs : Finset String) : Finset String :=
  ms.foldl mvStep fs

/-- Reverse move pass (`DatabaseLogger.undo` iterates
`fileMappings.reverse()`). -/
def undoAll (ms : List FileMapping) (fs : Finset String) : Finset String :=
  ms.reverse.foldl mvUnstep fs

lemma moveAll_cons (m : FileMapping) (ms : List FileMapping) (fs : Finset String) :
    moveAll (m :: ms) fs = moveAll ms (mvStep fs m) := rfl

lemma undoAll_cons (m : FileMapping) (ms : List FileMapping) (F : Finset String) :
    undoAll (m :: ms) F = mvUnstep (undoAll ms F) m := by
  unfold undoAll
  rw [List.reverse_cons, List.foldl_append]
  rfl

/-- A path that is absent and is no mapping's target stays absent through a
forward move pass. -/
lemma not_mem_moveAll {r : List FileMapping} {s : String} {X : Finset String}
    (hX : s ∉ X) (hT : ∀ p ∈ r, p.targetPath ≠ s) : s ∉ moveAll r X := by
  induction r generalizing X with
  | nil => simpa [moveAll] using hX
  | cons p r ih =>
    rw [moveAll_cons]
    refine ih ?_ (fun q hq => hT q (List.mem_cons_of_mem _ hq))
    unfold mvStep
    split_ifs with hp
    · intro hmem
      rcases Finset.mem_insert.mp hmem with h | h
      · exact hT p (List.mem_cons_self _ _) h.symm
      · exact hX (Finset.mem_of_mem_erase h)
    · exact hX

/-- A path that is no mapping's source can appear after the reverse undo
pass only if it was already present and no mapping targets it. -/
lemma mem_undoAll {r : List FileMapping} {s : String} {F : Finset String}
    (hs : s ∉ r.map FileMapping.sourcePath) (h : s ∈ undoAll r F) :
    s ∈ F ∧ ∀ p ∈ r, p.targetPath ≠ s := by
  induction r with
  | nil => simpa [undoAll] using h
  | cons p r ih =>
    rw [undoAll_cons] at h
    have hs' : s ∉ r.map FileMapping.sourcePath := by
      intro hmem; exact hs (by simp [hmem])
    have hsp : p.sourcePath ≠ s := by
      intro hmem; exact hs (by simp [← hmem])
    unfold mvUnstep at h
    split_ifs at h with htW
    · rcases Finset.mem_insert.mp h with h | h
      · exact absurd h.symm hsp
      · obtain ⟨hne, hW⟩ := Finset.mem_erase.mp h
        obtain ⟨hF, hT⟩ := ih hs' hW
        refine ⟨hF, ?_⟩
        intro q hq
        rcases List.mem_cons.mp hq with rfl | hq
        · exact fun hcontra => hne hcontra.symm
        · exact hT q hq
    · obtain ⟨hF, hT⟩ := ih hs' h
      refine ⟨hF, ?_⟩
      intro q hq
      rcases List.mem_cons.mp hq with rfl | hq
      · intro hcontra; exact htW (hcontra ▸ h)
      · exact hT q hq

/-- Re-applying a move right after its inverse is the identity, provided the
move's source is absent (or the move is a self-move). -/
lemma mvStep_mvUnstep (m : FileMapping) (V : Finset String)
    (h : m.sourcePath ∉ V ∨ m.sourcePath = m.targetPath) :
    mvStep (mvUnstep V m) m = V := by
  rcases h with hs | heq
  · unfold mvUnstep
    split_ifs with htV
    · unfold mvStep
      have hsE : m.sourcePath ∉ V.erase m.targetPath :=
        fun hmem => hs (Finset.mem_of_mem_erase hmem)
      rw [if_pos (Finset.mem_insert_self _ _), Finset.erase_insert hsE,
        Finset.insert_erase htV]
    · unfold mvStep
      rw [if_neg hs]
  · unfold mvUnstep mvStep
    rw [← heq]
    by_cases h1 : m.sourcePath ∈ V
    · rw [if_pos h1, Finset.insert_erase h1, if_pos h1, Finset.insert_erase h1]
    · rw [if_neg h1, if_neg h1]

/-- Round-trip of the move passes: a forward pass, then the reverse undo
pass, then a forward pass again reproduce the state after the first
forward pass, for any mapping list with pairwise-distinct source paths. -/
theorem moveAll_roundtrip (ms : List FileMapping)
    (h : (ms.map FileMapping.sourcePath).Nodup) (fs : Finset String) :
    moveAll ms (undoAll ms (moveAll ms fs)) = moveAll ms fs := by
  induction ms generalizing fs with
  | nil => simp [moveAll, undoAll]
  | cons m r ih =>
    rw [List.map_cons, List.nodup_cons] at h
    obtain ⟨hs, h'⟩ := h
    rw [moveAll_cons, undoAll_cons, moveAll_cons]
    set A := mvStep fs m with hA
    set V := undoAll r (moveAll r A) with hV
    have key : mvStep (mvUnstep V m) m = V := by
      apply mvStep_mvUnstep
      by_cases heq : m.sourcePath = m.targetPath
      · exact Or.inr heq
      · left
        intro hmem
        obtain ⟨hF, hT⟩ := mem_undoAll hs hmem
        refine absurd hF (not_mem_moveAll ?_ ?_)
        · rw [hA]; unfold mvStep
          split_ifs with hfs
          · intro hmem'
            rcases Finset.mem_insert.mp hmem' with hx | hx
            · exact heq hx
            · exact (Finset.not_mem_erase _ _) hx
          · exact hfs
        · exact hT
    rw [key]
    exact ih h' A

/-- One row of the `organization_history` table
(`OrganizationHistoryRecord`); the JSON text columns hold the serialized
structures and mapping list, modelled by the values themselves. -/
structure HRecord where
  id : Nat
  timestamp : Nat
  directory : String
  method : GroupingMethod
  filesProcessed : Nat
  bytesMoved : Nat
  duration : Nat
  beforeStructure : DirMapT
  afterStructure : DirMapT
  fileMappings : List FileMapping
  errors : List String
  skipped : List String
  isReversed : Bool
  originalOperationId : Option Nat
  deriving DecidableEq

/-- One row of the `file_operations` table. -/
structure FileOp where
  operationId : Nat
  sourcePath : String
  targetPath : String
  size : Nat
  modifiedTime : JsDate
  operation : String
  executedAt : Nat
  deriving DecidableEq

/-- The state a `DatabaseLogger` acts on: the two tables, the
`AUTOINCREMENT` counter, the `Date.now()` clock and the filesystem. -/
structure St where
  history : List HRecord
  fileOps : List FileOp
  nextId : Nat
  clock : Nat
  fsys : FSState
  deriving DecidableEq

/-- `DatabaseLogger.getOperationById`: `SELECT * WHERE id = ?`. -/
def getOperationById (s : St) (i : Nat) : Option HRecord :=
  s.history.find? (fun r => r.id == i)

/-- `DatabaseLogger.getLastOperation`: most recent (`ORDER BY timestamp
DESC LIMIT 1`) record with `isReversed = FALSE`; timestamps strictly
increase in insertion order, so this is the last matching element. -/
def getLastOperation (s : St) : Option HRecord :=
  (s.history.filter (fun r => r.isReversed == false)).getLast?

/-- `DatabaseLogger.getLastUndoOperation`: most recent record with
`isReversed = TRUE`. -/
def getLastUndoOperation (s : St) : Option HRecord :=
  (s.history.filter (fun r => r.isReversed == true)).getLast?

/-- One iteration of `DatabaseLogger.undo`'s move loop: when the target
still exists, create the source directory and move the file back,
counting the restore. -/
def undoMoveStep (acc : FSState × Nat) (m : FileMapping) : FSState × Nat :=
  if m.targetPath ∈ acc.1.files then
    ({ files := insert m.sourcePath (acc.1.files.erase m.targetPath),
       dirs := insert (dirname m.sourcePath) acc.1.dirs }, acc.2 + 1)
  else acc

/-- The reverse-order move loop of `DatabaseLogger.undo` over
`fileMappings.reverse()`. -/
def undoMovesFS (ms : List FileMapping) (fsys : FSState) : FSState × Nat :=
  ms.reverse.foldl undoMoveStep (fsys, 0)

/-- One iteration of `DatabaseLogger.redo`'s move loop: when the source
exists, create the target directory and move the file forward again. -/
def redoMoveStep (acc : FSState × Nat) (m : FileMapping) : FSState × Nat :=
  if m.sourcePath ∈ acc.1.files then
    ({ files := insert m.targetPath (acc.1.files.erase m.sourcePath),
       dirs := insert (dirname m.targetPath) acc.1.dirs }, acc.2 + 1)
  else acc

/-- The forward move loop of `DatabaseLogger.redo`, in original order. -/
def redoMovesFS (ms : List FileMapping) (fsys : FSState) : FSState × Nat :=
  ms.foldl redoMoveStep (fsys, 0)

/-- `DatabaseLogger.logOrganization`: inserts one history row
(`isReversed = FALSE`, no `originalOperationId`) and one `file_operations`
row per mapping, all stamped with the same timestamp, and returns the new
id. -/
def logOrganization (directory : String) (method : GroupingMethod)
    (beforeStructure afterStructure : DirMapT) (fileMappings : List FileMapping)
    (stats : OrganizationStats) (duration : Nat) (s : St) : Nat × St :=
  let timestamp := s.clock
  let opId := s.nextId
  let record : HRecord :=
    { id := opId, timestamp := timestamp, directory := directory,
      method := method, filesProcessed := stats.filesProcessed,
      bytesMoved := stats.bytesMoved, duration := duration,
      beforeStructure := beforeStructure, afterStructure := afterStructure,
      fileMappings := fileMappings, errors := stats.errors,
      skipped := stats.skipped, isReversed := false,
      originalOperationId := none }
  let rows := fileMappings.map (fun m =>
    ({ operationId := opId, sourcePath := m.sourcePath,
       targetPath := m.targetPath, size := m.size,
       modifiedTime := m.modifiedTime, operation := "move",
       executedAt := timestamp } : FileOp))
  (opId, { s with history := s.history ++ [record],
                  fileOps := s.fileOps ++ rows,
                  nextId := opId + 1, clock := s.clock + 1 })

/-- `DatabaseLogger.logUndoOperation`: inserts a new history row that
swaps the original's before/after structures, copies its mapping list,
zeroes `bytesMoved`/`duration`, references the original via
`originalOperationId`, and is unconditionally `isReversed = TRUE`. -/
def logUndoOperation (originalOperation : HRecord) (filesProcessed : Nat)
    (s : St) : Nat × St :=
  let record : HRecord :=
    { id := s.nextId, timestamp := s.clock,
      directory := originalOperation.directory,
      method := originalOperation.method,
      filesProcessed := filesProcessed, bytesMoved := 0, duration := 0,
      beforeStructure := originalOperation.afterStructure,
      afterStructure := originalOperation.beforeStructure,
      fileMappings := originalOperation.fileMappings,
      errors := [], skipped := [], isReversed := true,
      originalOperationId := some originalOperation.id }
  (s.nextId, { s with history := s.history ++ [record],
                      nextId := s.nextId + 1, clock := s.clock + 1 })

/-- `DatabaseLogger.logRedoOperation`: delegates to `logUndoOperation` on a
copy of the original record with `isReversed` cleared — a field the
insert then ignores, hard-coding `TRUE`. -/
def logRedoOperation (originalOperation : HRecord) (filesProcessed : Nat)
    (s : St) : Nat × St :=
  logUndoOperation
    { originalOperation with isReversed := false,
                             filesProcessed := filesProcessed }
    filesProcessed s

/-- `operationId ? this.getOperationById(operationId) : this.getLastOperation()`
(`0` is falsy in JS). -/
def resolveUndoTarget (operationId? : Option Nat) (s : St) : Option HRecord :=
  match operationId? with
  | some i => if i = 0 then getLastOperation s else getOperationById s i
  | none => getLastOperation s

/-- `DatabaseLogger.undo`. An explicit id resolves by lookup (`0` is falsy
in JS and falls back to the latest operation); the three guards reject
with `false` and no mutation; otherwise the reverse move loop runs, the
undo row is logged, and the call returns `true`. -/
def undo (operationId? : Option Nat) (s : St) : Bool × St :=
  match resolveUndoTarget operationId? s with
  | none => (false, s)
  | some top =>
    if top.isReversed then (false, s)
    else if s.history.any
        (fun r => r.isReversed && r.originalOperationId == some top.id) then
      (false, s)
    else
      let moved := undoMovesFS top.fileMappings s.fsys
      (true, (logUndoOperation top moved.2 { s with fsys := moved.1 }).2)

/-- `undoOperationId ? this.getOperationById(undoOperationId) :
this.getLastUndoOperation()` (`0` is falsy in JS). -/
def resolveRedoSource (undoOperationId? : Option Nat) (s : St) : Option HRecord :=
  match undoOperationId? with
  | some i => if i = 0 then getLastUndoOperation s else getOperationById s i
  | none => getLastUndoOperation s

/-- `DatabaseLogger.redo`. Resolves an undo record (explicit id, `0`
falsy), rejects records that are not reversals or lack a truthy
`originalOperationId`, loads the original operation, replays its mappings
forward and logs via `logRedoOperation`. -/
def redo (undoOperationId? : Option Nat) (s : St) : Bool × St :=
  match resolveRedoSource undoOperationId? s with
  | none => (false, s)
  | some u =>
    if u.isReversed = false then (false, s)
    else
      match u.originalOperationId with
      | none => (false, s)
      | some oid =>
        if oid = 0 then (false, s)
        else
          match getOperationById s oid with
          | none => (false, s)
          | some originalOperation =>
            let moved := redoMovesFS originalOperation.fileMappings s.fsys
            (true,
             (logRedoOperation originalOperation moved.2
               { s with fsys := moved.1 }).2)

/-- `DatabaseLogger.clearHistory`: `DELETE FROM` both tables. -/
def clearHistory (s : St) : St :=
  { s with history := [], fileOps := [] }

/-- The mutating entry points of `DatabaseLogger`, as opaque-argument
operations for reasoning about arbitrary interleavings. -/
inductive LoggerOp where
  | logOp (directory : String) (method : GroupingMethod)
      (beforeStructure afterStructure : DirMapT)
      (fileMappings : List FileMapping) (stats : OrganizationStats)
      (duration : Nat)
  | undoOp (operationId? : Option Nat)
  | redoOp (operationId? : Option Nat)
  | clearOp

/-- State effect of one logger call (return values discarded). -/
def applyOp (op : LoggerOp) (s : St) : St :=
  match op with
  | .logOp directory method b a ms stats duration =>
      (logOrganization directory method b a ms stats duration s).2
  | .undoOp i? => (undo i? s).2
  | .redoOp i? => (redo i? s).2
  | .clearOp => clearHistory s

/-- State effect of a sequence of logger calls, first op first. -/
def applyOps (ops : List LoggerOp) (s : St) : St :=
  ops.foldl (fun s op => applyOp op s) s

/-- Well-formedness that every reachable `DatabaseLogger` state enjoys:
the id counter is positive and ahead of every stored id
(`AUTOINCREMENT` never reuses ids, even across `DELETE`), ids are
pairwise distinct, and every `originalOperationId` references a stored
record. -/
def wf (s : St) : Prop :=
  0 < s.nextId ∧
  (∀ r ∈ s.history, 0 < r.id ∧ r.id < s.nextId) ∧
  (s.history.map HRecord.id).Nodup ∧
  (∀ r ∈ s.history, ∀ oid, r.originalOperationId = some oid →
    ∃ o ∈ s.history, o.id = oid)

namespace NeatFolderV7

/-- `NeatFolder.organize` (part_007), from the point where the directory
has been validated and the glob scan produced `allFiles`: build the before
structure, compute the mappings, return early when there are none, run the
move loop, and persist through `logOrganization` unless in dry-run. -/
def organize (opts : OrganizationOptions) (meta : String → FileStats)
    (basePath : String) (allFiles : List String) (s : St) : St :=
  let initialStructure := buildDirectoryStructure basePath allFiles
  let mapped := createFileMappings opts meta s.fsys.files basePath allFiles emptyStats
  if mapped.1.isEmpty then s
  else
    let run := processFileMappings opts mapped.1 (s.fsys, [], mapped.2)
    let s' := { s with fsys := run.1 }
    if opts.dryRun then s'
    else
      (logOrganization basePath opts.method initialStructure run.2.1
        mapped.1 run.2.2 0 s').2

end NeatFolderV7

lemma getOperationById_mem {s : St} {i : Nat} {r : HRecord}
    (h : getOperationById s i = some r) : r ∈ s.history ∧ r.id = i := by
  refine ⟨List.mem_of_find?_eq_some h, ?_⟩
  have := List.find?_some h
  simpa using this

lemma find?_id_eq_some {l : List HRecord} (hnd : (l.map HRecord.id).Nodup)
    {r : HRecord} (hr : r ∈ l) {i : Nat} (hid : r.id = i) :
    l.find? (fun x => x.id == i) = some r := by
  induction l with
  | nil => cases hr
  | cons a tl ih =>
    rw [List.map_cons, List.nodup_cons] at hnd
    rw [List.find?_cons]
    by_cases ha : a.id = i
    · simp only [ha, beq_self_eq_true]
      rcases List.mem_cons.mp hr with rfl | hmem
      · rfl
      · have hin : r.id ∈ List.map HRecord.id tl := List.mem_map_of_mem _ hmem
        rw [hid, ← ha] at hin
        exact absurd hin hnd.1
    · have : (a.id == i) = false := by simpa using ha
      simp only [this]
      rcases List.mem_cons.mp hr with rfl | hmem
      · exact absurd hid ha
      · exact ih hnd.2 hmem

lemma getOperationById_eq_some {s : St} {i : Nat} {r : HRecord}
    (hnd : (s.history.map HRecord.id).Nodup) (hr : r ∈ s.history)
    (hid : r.id = i) : getOperationById s i = some r :=
  find?_id_eq_some hnd hr hid

lemma getLastOperation_mem {s : St} {t : HRecord}
    (h : getLastOperation s = some t) : t ∈ s.history ∧ t.isReversed = false := by
  unfold getLastOperation at h
  have hmem := List.mem_of_mem_getLast? h
  exact ⟨(List.mem_filter.mp hmem).1, by simpa using (List.mem_filter.mp hmem).2⟩

lemma getLastUndoOperation_mem {s : St} {t : HRecord}
    (h : getLastUndoOperation s = some t) :
    t ∈ s.history ∧ t.isReversed = true := by
  unfold getLastUndoOperation at h
  have hmem := List.mem_of_mem_getLast? h
  exact ⟨(List.mem_filter.mp hmem).1, by simpa using (List.mem_filter.mp hmem).2⟩

/-- Appending a fresh, reference-valid record preserves well-formedness;
this is the shape every insert of the logger has. -/
lemma wf_append {s : St} (h : wf s) {r : HRecord} (hid : r.id = s.nextId)
    (href : ∀ oid, r.originalOperationId = some oid → ∃ o ∈ s.history, o.id = oid)
    {s' : St} (hh : s'.history = s.history ++ [r])
    (hn : s'.nextId = s.nextId + 1) : wf s' := by
  obtain ⟨hpos, hbound, hnd, href0⟩ := h
  refine ⟨by omega, ?_, ?_, ?_⟩
  · intro x hx
    rw [hh] at hx
    rcases List.mem_append.mp hx with hx | hx
    · have := hbound x hx; omega
    · rcases List.mem_singleton.mp hx with rfl
      omega
  · rw [hh, List.map_append, List.nodup_append]
    refine ⟨hnd, List.nodup_singleton _, ?_⟩
    intro b hb
    simp only [List.map_singleton, List.mem_singleton]
    intro hcontra
    rw [List.mem_map] at hb
    obtain ⟨x, hx, hxe⟩ := hb
    have := (hbound x hx).2
    omega
  · intro x hx oid hoid
    rw [hh] at hx ⊢
    rcases List.mem_append.mp hx with hx | hx
    · obtain ⟨o, ho, hoe⟩ := href0 x hx oid hoid
      exact ⟨o, List.mem_append_left _ ho, hoe⟩
    · rcases List.mem_singleton.mp hx with rfl
      obtain ⟨o, ho, hoe⟩ := href oid hoid
      exact ⟨o, List.mem_append_left _ ho, hoe⟩

lemma resolveUndoTarget_mem {i? : Option Nat} {s : St} {top : HRecord}
    (h : resolveUndoTarget i? s = some top) : top ∈ s.history := by
  rcases i? with _ | i <;> simp only [resolveUndoTarget] at h
  · exact (getLastOperation_mem h).1
  · by_cases hi : i = 0
    · rw [if_pos hi] at h; exact (getLastOperation_mem h).1
    · rw [if_neg hi] at h; exact (getOperationById_mem h).1

lemma resolveRedoSource_mem {i? : Option Nat} {s : St} {u : HRecord}
    (h : resolveRedoSource i? s = some u) : u ∈ s.history := by
  rcases i? with _ | i <;> simp only [resolveRedoSource] at h
  · exact (getLastUndoOperation_mem h).1
  · by_cases hi : i = 0
    · rw [if_pos hi] at h; exact (getLastUndoOperation_mem h).1
    · rw [if_neg hi] at h; exact (getOperationById_mem h).1

lemma wf_logOrganization (d : String) (m : GroupingMethod)
    (b a : DirMapT) (ms : List FileMapping) (stats : OrganizationStats)
    (dur : Nat) {s : St} (h : wf s) :
    wf (logOrganization d m b a ms stats dur s).2 :=
  wf_append h rfl (fun _ hoid => by simp at hoid) rfl rfl

lemma wf_logUndoOperation {s : St} (h : wf s) {orig : HRecord} (n : Nat)
    (horig : ∃ o ∈ s.history, o.id = orig.id) :
    wf (logUndoOperation orig n s).2 :=
  wf_append h rfl
    (fun oid hoid => by
      have he : orig.id = oid := by simpa using hoid
      exact he ▸ horig)
    rfl rfl

lemma wf_logRedoOperation {s : St} (h : wf s) {orig : HRecord} (n : Nat)
    (horig : ∃ o ∈ s.history, o.id = orig.id) :
    wf (logRedoOperation orig n s).2 :=
  wf_logUndoOperation h n horig

lemma wf_undo (i? : Option Nat) {s : St} (h : wf s) : wf (undo i? s).2 := by
  unfold undo
  rcases hres : resolveUndoTarget i? s with _ | top
  · exact h
  · have hmem := resolveUndoTarget_mem hres
    dsimp only
    split_ifs with h1 h2
    · exact h
    · exact h
    · exact wf_logUndoOperation (s := { s with fsys := _ }) h _ ⟨top, hmem, rfl⟩

lemma wf_redo (i? : Option Nat) {s : St} (h : wf s) : wf (redo i? s).2 := by
  unfold redo
  rcases hres : resolveRedoSource i? s with _ | u
  · exact h
  · dsimp only
    split_ifs with h1
    · exact h
    · rcases hoid : u.originalOperationId with _ | oid
      · exact h
      · dsimp only
        split_ifs with h2
        · exact h
        · rcases horig : getOperationById s oid with _ | orig
          · exact h
          · dsimp only
            have hmem := (getOperationById_mem horig).1
            exact wf_logRedoOperation (s := { s with fsys := _ }) h _
              ⟨orig, hmem, rfl⟩

lemma wf_clearHistory {s : St} (h : wf s) : wf (clearHistory s) := by
  obtain ⟨hpos, -, -, -⟩ := h
  exact ⟨hpos, by simp [clearHistory], by simp [clearHistory], by simp [clearHistory]⟩

lemma wf_applyOp (op : LoggerOp) {s : St} (h : wf s) : wf (applyOp op s) := by
  cases op with
  | logOp d m b a ms stats dur => exact wf_logOrganization d m b a ms stats dur h
  | undoOp i? => exact wf_undo i? h
  | redoOp i? => exact wf_redo i? h
  | clearOp => exact wf_clearHistory h

lemma wf_applyOps (ops : List LoggerOp) {s : St} (h : wf s) :
    wf (applyOps ops s) := by
  induction ops generalizing s with
  | nil => exact h
  | cons op rest ih => exact ih (wf_applyOp op h)

/-- After a successful `undo(i)`, one of the two conditions that make any
further `undo(i)` a no-op holds forever: either a reversal record
referencing `i` is stored, or no record with id `i` exists at all (after
`clearHistory`) — and `AUTOINCREMENT` never hands out `i` again. -/
def undoGuardBlocked (i : Nat) (s : St) : Prop :=
  i < s.nextId ∧
  ((∃ r ∈ s.history, r.isReversed = true ∧ r.originalOperationId = some i) ∨
   (∀ r ∈ s.history, r.id ≠ i))

lemma blocked_append {i : Nat} {s s' : St} (h : undoGuardBlocked i s)
    {r : HRecord} (hh : s'.history = s.history ++ [r])
    (hn : s.nextId ≤ s'.nextId) (hrid : r.id ≠ i) : undoGuardBlocked i s' := by
  obtain ⟨hlt, hcase⟩ := h
  refine ⟨by omega, ?_⟩
  rcases hcase with ⟨x, hx, hrev, horig⟩ | hall
  · exact Or.inl ⟨x, by rw [hh]; exact List.mem_append_left _ hx, hrev, horig⟩
  · refine Or.inr ?_
    intro x hx
    rw [hh] at hx
    rcases List.mem_append.mp hx with hx | hx
    · exact hall x hx
    · rcases List.mem_singleton.mp hx with rfl
      exact hrid

lemma blocked_applyOp (op : LoggerOp) {i : Nat} {s : St}
    (h : undoGuardBlocked i s) : undoGuardBlocked i (applyOp op s) := by
  have hlt := h.1
  cases op with
  | logOp d m b a ms stats dur =>
    exact blocked_append h rfl (by simp [applyOp, logOrganization])
      (by simp [logOrganization]; omega)
  | undoOp i? =>
    show undoGuardBlocked i (undo i? s).2
    unfold undo
    rcases hres : resolveUndoTarget i? s with _ | top
    · exact h
    · dsimp only
      split_ifs with h1 h2
      · exact h
      · exact h
      · exact blocked_append h rfl (by simp only [logUndoOperation]; omega)
          (by simp only [logUndoOperation]; omega)
  | redoOp i? =>
    show undoGuardBlocked i (redo i? s).2
    unfold redo
    rcases hres : resolveRedoSource i? s with _ | u
    · exact h
    · dsimp only
      split_ifs with h1
      · exact h
      · rcases hoid : u.originalOperationId with _ | oid
        · exact h
        · dsimp only
          split_ifs with h2
          · exact h
          · rcases horig : getOperationById s oid with _ | orig
            · exact h
            · dsimp only
              exact blocked_append h rfl
                (by simp only [logRedoOperation, logUndoOperation]; omega)
                (by simp only [logRedoOperation, logUndoOperation]; omega)
  | clearOp =>
    exact ⟨hlt, Or.inr (by simp [applyOp, clearHistory])⟩

lemma blocked_applyOps (ops : List LoggerOp) {i : Nat} {s : St}
    (h : undoGuardBlocked i s) : undoGuardBlocked i (applyOps ops s) := by
  induction ops generalizing s with
  | nil => exact h
  | cons op rest ih => exact ih (blocked_applyOp op h)

/-- While the guard condition holds, `undo` with that explicit id rejects:
it returns `false` and leaves the state untouched. -/
lemma blocked_undo_false {i : Nat} {s : St} (hi : i ≠ 0)
    (h : undoGuardBlocked i s) : undo (some i) s = (false, s) := by
  unfold undo
  have hres : resolveUndoTarget (some i) s = getOperationById s i := by
    simp [resolveUndoTarget, hi]
  rw [hres]
  rcases hfind : getOperationById s i with _ | top
  · rfl
  · obtain ⟨hmem, hid⟩ := getOperationById_mem hfind
    dsimp only
    rcases h.2 with ⟨r, hr, hrev, horig⟩ | hall
    · by_cases hrev2 : top.isReversed
      · simp [hrev2]
      · have hany :
            (s.history.any fun r =>
              r.isReversed && r.originalOperationId == some top.id) = true :=
          List.any_eq_true.mpr ⟨r, hr, by simp [hrev, horig, hid]⟩
      
        simp [hrev2, hany]
    · exact absurd hid (hall top hmem)

lemma logUndo_mem_reversal (top : HRecord) (n : Nat) (s : St) :
    ∃ r ∈ (logUndoOperation top n s).2.history,
      r.isReversed = true ∧ r.originalOperationId = some top.id :=
  ⟨_, List.mem_append_right _ (List.mem_singleton_self _), rfl, rfl⟩

/-- A successful explicit-id `undo` leaves the guard permanently blocked
for that id. -/
lemma undo_success_blocked {i : Nat} {s s₁ : St} (hwf : wf s) (hi : i ≠ 0)
    (h : undo (some i) s = (true, s₁)) : undoGuardBlocked i s₁ := by
  unfold undo at h
  have hres : resolveUndoTarget (some i) s = getOperationById s i := by
    simp [resolveUndoTarget, hi]
  rw [hres] at h
  rcases hfind : getOperationById s i with _ | top
  · rw [hfind] at h
    simp at h
  · rw [hfind] at h
    dsimp only at h
    split_ifs at h with h1 h2
    · simp at h
    · simp at h
    · obtain ⟨hmem, hid⟩ := getOperationById_mem hfind
      have hlt : top.id < s.nextId := (hwf.2.1 top hmem).2
      have hs₁ : s₁ =
          (logUndoOperation top (undoMovesFS top.fileMappings s.fsys).2
            { s with fsys := (undoMovesFS top.fileMappings s.fsys).1 }).2 := by
        have := congrArg Prod.snd h
        simpa using this.symm
      subst hs₁
      constructor
      · simp only [logUndoOperation]
        omega
      · left
        obtain ⟨r, hr, hrev, horig⟩ := logUndo_mem_reversal top
          (undoMovesFS top.fileMappings s.fsys).2
          { s with fsys := (undoMovesFS top.fileMappings s.fsys).1 }
        exact ⟨r, hr, hrev, by rw [horig, hid]⟩

/-- C1. Single-undo invariant: on a well-formed logger state, once a first
`undo(id)` call has returned `true`, every subsequent `undo(id)` call —
after any interleaving of `logOrganization`, `undo`, `redo` and
`clearHistory` calls — returns `false` and performs no filesystem move and
no history insertion (the state is returned unchanged). -/
theorem c1_single_undo (s₀ : St) (i : Nat) (hwf : wf s₀) (hi : i ≠ 0)
    (s₁ : St) (hfirst : undo (some i) s₀ = (true, s₁)) (ops : List LoggerOp) :
    undo (some i) (applyOps ops s₁) = (false, applyOps ops s₁) :=
  blocked_undo_false hi (blocked_applyOps ops (undo_success_blocked hwf hi hfirst))

/-- A one-operation history over `/data` with its organize pass already
executed, used to exercise the logger operations on concrete data. -/
def sampleOrgRecord : HRecord :=
  { id := 1, timestamp := 0, directory := "/data", method := .extension,
    filesProcessed := 1, bytesMoved := 3, duration := 0,
    beforeStructure := [], afterStructure := [],
    fileMappings := [⟨"/data/a.txt", "/data/documents/a.txt", 3, ⟨2024, 0⟩⟩],
    errors := [], skipped := [], isReversed := false,
    originalOperationId := none }

/-- Concrete logger state holding `sampleOrgRecord`, with the moved file on
disk. -/
def sampleSt : St :=
  { history := [sampleOrgRecord], fileOps := [], nextId := 2, clock := 1,
    fsys := ⟨{"/data/documents/a.txt"}, {"/data/documents"}⟩ }

theorem c1_single_undo_witness :
    undo (some 1) (applyOps [] (undo (some 1) sampleSt).2) =
      (false, applyOps [] (undo (some 1) sampleSt).2) :=
  c1_single_undo sampleSt 1
    (by
      refine ⟨by decide, ?_, by decide, ?_⟩
      · intro r hr
        simp only [sampleSt, List.mem_singleton] at hr
        subst hr
        decide
      · intro r hr oid hoid
        simp only [sampleSt, List.mem_singleton] at hr
        subst hr
        simp [sampleOrgRecord] at hoid)
    (by decide) ((undo (some 1) sampleSt).2) (by rfl) []

/-- Characterization of a successful `redo`: with a stored reversal record
and its original present, the call replays the original's mappings and
logs through `logRedoOperation`. -/
lemma redo_success_of {s : St} (hwf : wf s) {u : HRecord} (hu : u ∈ s.history)
    (hui : u.id ≠ 0) (hrev : u.isReversed = true) {oid : Nat}
    (hoid : u.originalOperationId = some oid) (hoid0 : oid ≠ 0)
    {orig : HRecord} (horig : orig ∈ s.history) (horigid : orig.id = oid) :
    redo (some u.id) s =
      (true, (logRedoOperation orig (redoMovesFS orig.fileMappings s.fsys).2
        { s with fsys := (redoMovesFS orig.fileMappings s.fsys).1 }).2) := by
  unfold redo
  have hres : resolveRedoSource (some u.id) s = getOperationById s u.id := by
    simp [resolveRedoSource, hui]
  rw [hres, getOperationById_eq_some hwf.2.2.1 hu rfl]
  dsimp only
  rw [if_neg (by simp [hrev]), hoid]
  dsimp only
  rw [if_neg hoid0, getOperationById_eq_some hwf.2.2.1 horig horigid]

/-- C9. Redo has no repetition guard: for any stored reversal record (with
its original operation still stored), an explicit `redo` of it returns
`true` and appends a fresh history record — and calling `redo` again on
the resulting state succeeds again; nothing marks a reversal as already
redone. -/
theorem c9_redo_unguarded (s : St) (hwf : wf s) (u : HRecord)
    (hu : u ∈ s.history) (hrev : u.isReversed = true) (oid : Nat)
    (hoid : u.originalOperationId = some oid) (orig : HRecord)
    (horig : orig ∈ s.history) (horigid : orig.id = oid) :
    (redo (some u.id) s).1 = true ∧
    (∃ r, (redo (some u.id) s).2.history = s.history ++ [r]) ∧
    (redo (some u.id) (redo (some u.id) s).2).1 = true := by
  have hui : u.id ≠ 0 := by
    have := (hwf.2.1 u hu).1
    omega
  have hoid0 : oid ≠ 0 := by
    have := (hwf.2.1 orig horig).1
    omega
  have h1 := redo_success_of hwf hu hui hrev hoid hoid0 horig horigid
  refine ⟨by rw [h1], by rw [h1]; exact ⟨_, rfl⟩, ?_⟩
  set s' := (redo (some u.id) s).2 with hs'
  have hwf' : wf s' := wf_redo _ hwf
  obtain ⟨r0, hist'⟩ : ∃ r, s'.history = s.history ++ [r] := by
    rw [hs', h1]
    exact ⟨_, rfl⟩
  have hu' : u ∈ s'.history := by
    rw [hist']
    exact List.mem_append_left _ hu
  have horig' : orig ∈ s'.history := by
    rw [hist']
    exact List.mem_append_left _ horig
  have h2 := redo_success_of hwf' hu' hui hrev hoid hoid0 horig' horigid
  rw [h2]

/-- The reversal row `undo` logs for `sampleOrgRecord`. -/
def sampleUndoRecord : HRecord :=
  { id := 2, timestamp := 1, directory := "/data", method := .extension,
    filesProcessed := 1, bytesMoved := 0, duration := 0,
    beforeStructure := [], afterStructure := [],
    fileMappings := [⟨"/data/a.txt", "/data/documents/a.txt", 3, ⟨2024, 0⟩⟩],
    errors := [], skipped := [], isReversed := true,
    originalOperationId := some 1 }

/-- Concrete logger state after organizing and undoing: the original
operation and its reversal are stored, the file is back at its source. -/
def sampleUndoSt : St :=
  { history := [sampleOrgRecord, sampleUndoRecord], fileOps := [],
    nextId := 3, clock := 2,
    fsys := ⟨{"/data/a.txt"}, {"/data/documents", "/data"}⟩ }

lemma wf_sampleUndoSt : wf sampleUndoSt := by
  refine ⟨by decide, by decide, by decide, ?_⟩
  intro r hr oid hoid
  simp only [sampleUndoSt] at hr
  rcases List.mem_cons.mp hr with rfl | hr
  · simp [sampleOrgRecord] at hoid
  · rcases List.mem_singleton.mp hr with rfl
    have : oid = 1 := by simpa [sampleUndoRecord] using hoid.symm
    subst this
    exact ⟨sampleOrgRecord, List.mem_cons_self _ _, rfl⟩

theorem c9_redo_unguarded_witness :
    (redo (some sampleUndoRecord.id) sampleUndoSt).1 = true ∧
    (∃ r, (redo (some sampleUndoRecord.id) sampleUndoSt).2.history =
      sampleUndoSt.history ++ [r]) ∧
    (redo (some sampleUndoRecord.id)
      (redo (some sampleUndoRecord.id) sampleUndoSt).2).1 = true :=
  c9_redo_unguarded sampleUndoSt wf_sampleUndoSt sampleUndoRecord
    (by decide) rfl 1 rfl sampleOrgRecord (by decide) rfl

/-- Number of reversal records referencing operation id `i` — the quantity
the "single undo per operation" invariant bounds. -/
def reversalsFor (i : Nat) (hist : List HRecord) : Nat :=
  (hist.filter (fun r => r.isReversed && r.originalOperationId == some i)).length

/-- A fresh `DatabaseLogger` state: empty tables, first id 1. -/
def initSt : St :=
  { history := [], fileOps := [], nextId := 1, clock := 0, fsys := ⟨∅, ∅⟩ }

/-- Whether a logger call is a `redo`. -/
def isRedoOp : LoggerOp → Bool
  | .redoOp _ => true
  | _ => false

lemma reversalsFor_append (i : Nat) (h : List HRecord) (r : HRecord) :
    reversalsFor i (h ++ [r]) =
      reversalsFor i h +
        (if r.isReversed && r.originalOperationId == some i then 1 else 0) := by
  unfold reversalsFor
  rw [List.filter_append, List.length_append]
  by_cases hp : (r.isReversed && r.originalOperationId == some i) = true
  · simp [hp]
  · simp [hp]

lemma reversalsFor_le_applyOp (op : LoggerOp) (hop : isRedoOp op = false)
    {i : Nat} {s : St} (h : reversalsFor i s.history ≤ 1) :
    reversalsFor i (applyOp op s).history ≤ 1 := by
  cases op with
  | logOp d m b a ms stats dur =>
    show reversalsFor i (logOrganization d m b a ms stats dur s).2.history ≤ 1
    unfold logOrganization
    dsimp only
    rw [reversalsFor_append]
    simpa using h
  | undoOp i? =>
    show reversalsFor i (undo i? s).2.history ≤ 1
    unfold undo
    rcases hres : resolveUndoTarget i? s with _ | top
    · exact h
    · dsimp only
      split_ifs with h1 h2
      · exact h
      · exact h
      · unfold logUndoOperation
        dsimp only
        rw [reversalsFor_append]
        by_cases hti : top.id = i
        · subst hti
          have h0 : reversalsFor top.id s.history = 0 := by
            unfold reversalsFor
            rw [List.length_eq_zero, List.filter_eq_nil_iff]
            rw [List.any_eq_true] at h2
            push_neg at h2
            exact h2
          rw [h0]
          simp
        · simpa [hti] using h
  | redoOp j? => simp [isRedoOp] at hop
  | clearOp =>
    show reversalsFor i (clearHistory s).history ≤ 1
    simp [clearHistory, reversalsFor]

/-- Any successful `redo` appends a record that is itself a reversal
(`isReversed = TRUE`) referencing the original operation id, because
`logRedoOperation` reuses `logUndoOperation`. -/
lemma redo_appends_reversal (i? : Option Nat) (s s' : St)
    (h : redo i? s = (true, s')) :
    ∃ orig rec, orig ∈ s.history ∧ s'.history = s.history ++ [rec] ∧
      rec.isReversed = true ∧ rec.originalOperationId = some orig.id := by
  unfold redo at h
  rcases hres : resolveRedoSource i? s with _ | u
  · rw [hres] at h
    simp at h
  · rw [hres] at h
    dsimp only at h
    split_ifs at h with h1
    · simp at h
    · rcases hoid : u.originalOperationId with _ | oid
      · rw [hoid] at h
        simp at h
      · rw [hoid] at h
        dsimp only at h
        split_ifs at h with h2
        · simp at h
        · rcases horig : getOperationById s oid with _ | orig
          · rw [horig] at h
            simp at h
          · rw [horig] at h
            dsimp only at h
            have hs' := congrArg Prod.snd h
            dsimp at hs'
            have hx : ∃ rec,
                (logRedoOperation orig (redoMovesFS orig.fileMappings s.fsys).2
                  { s with fsys := (redoMovesFS orig.fileMappings s.fsys).1 }).2.history =
                    s.history ++ [rec] ∧ rec.isReversed = true ∧
                    rec.originalOperationId = some orig.id := ⟨_, rfl, rfl, rfl⟩
            obtain ⟨rec, hh, hrev, ho⟩ := hx
            exact ⟨orig, rec, (getOperationById_mem horig).1, hs' ▸ hh, hrev, ho⟩

/-- C3 counterexample: starting from an empty store, `logOrganization`
(id 1), `undo(1)` (id 2) and `redo(2)` leave TWO `isReversed = true`
records referencing id 1 — the redo row is logged as a reversal, not as
"not reversed", because `logRedoOperation` delegates to
`logUndoOperation`, whose insert hard-codes `isReversed = TRUE`. -/
theorem c3_counterexample :
    reversalsFor 1 (applyOps
      [LoggerOp.logOp "/data" .extension [] [] [] emptyStats 0,
       LoggerOp.undoOp (some 1),
       LoggerOp.redoOp (some 2)] initSt).history = 2 ∧
    (applyOps
      [LoggerOp.logOp "/data" .extension [] [] [] emptyStats 0,
       LoggerOp.undoOp (some 1),
       LoggerOp.redoOp (some 2)] initSt).history.map HRecord.isReversed =
      [false, true, true] := by decide

/-- C3 amended. The at-most-one-reversal invariant holds for every
sequence of `logOrganization` and `undo` calls (no `redo`): at most one
`isReversed = true` record references any given original id. A `redo`,
however, re-logs the operation as ANOTHER reversal record
(`isReversed = true`, `originalOperationId` set to the original id), so
each successful redo adds a further reversal record referencing it. -/
theorem c3_at_most_one_reversal :
    (∀ ops : List LoggerOp, (∀ op ∈ ops, isRedoOp op = false) →
      ∀ i, reversalsFor i (applyOps ops initSt).history ≤ 1) ∧
    (∀ (i? : Option Nat) (s s' : St), redo i? s = (true, s') →
      ∃ orig rec, orig ∈ s.history ∧ s'.history = s.history ++ [rec] ∧
        rec.isReversed = true ∧ rec.originalOperationId = some orig.id) := by
  constructor
  · intro ops hops i
    suffices hgen : ∀ (l : List LoggerOp), (∀ op ∈ l, isRedoOp op = false) →
        ∀ s : St, reversalsFor i s.history ≤ 1 →
          reversalsFor i (applyOps l s).history ≤ 1 by
      exact hgen ops hops initSt (by simp [initSt, reversalsFor])
    intro l hl
    induction l with
    | nil => intro s h; exact h
    | cons op rest ih =>
      intro s h
      exact ih (fun o ho => hl o (List.mem_cons_of_mem _ ho)) _
        (reversalsFor_le_applyOp op (hl op (List.mem_cons_self _ _)) h)
  · exact redo_appends_reversal

theorem c3_at_most_one_reversal_witness :
    reversalsFor 1 (applyOps
      [LoggerOp.logOp "/data" .extension [] [] [] emptyStats 0,
       LoggerOp.undoOp (some 1)] initSt).history ≤ 1 ∧
    (∃ orig rec, orig ∈ sampleUndoSt.history ∧
      (redo (some 2) sampleUndoSt).2.history = sampleUndoSt.history ++ [rec] ∧
      rec.isReversed = true ∧ rec.originalOperationId = some orig.id) :=
  ⟨c3_at_most_one_reversal.1
      [LoggerOp.logOp "/data" .extension [] [] [] emptyStats 0,
       LoggerOp.undoOp (some 1)] (by decide) 1,
   c3_at_most_one_reversal.2 (some 2) sampleUndoSt
     (redo (some 2) sampleUndoSt).2 (by rfl)⟩

lemma string_ne_empty_of_data_cons {f : String} (h : f ≠ "") : f.data ≠ [] := by
  intro hd
  apply h
  cases f with
  | mk d =>
    subst hd
    rfl

lemma singleton_ne_empty (c : Char) : String.singleton c ≠ "" := by
  intro h
  have := congrArg String.data h
  simp [String.singleton] at this

lemma getCategoryFromFile_ne_empty (categories : List (List String × String))
    (hne : ∀ row ∈ categories, row.2 ≠ "") (file : String) :
    FileCategorizationService.getCategoryFromFile categories file ≠ "" := by
  induction categories with
  | nil => simp [FileCategorizationService.getCategoryFromFile]
  | cons row rest ih =>
    unfold FileCategorizationService.getCategoryFromFile
    split_ifs with hp
    · exact hne row (List.mem_cons_self _ _)
    · exact ih (fun q hq => hne q (List.mem_cons_of_mem _ hq))

lemma getCategoryFromFile_eq_others (categories : List (List String × String))
    (file : String)
    (hnone : ∀ row ∈ categories, testCategoryPattern row.1 file = false) :
    FileCategorizationService.getCategoryFromFile categories file = "others" := by
  induction categories with
  | nil => rfl
  | cons row rest ih =>
    unfold FileCategorizationService.getCategoryFromFile
    rw [if_neg (by simp [hnone row (List.mem_cons_self _ _)])]
    exact ih (fun q hq => hnone q (List.mem_cons_of_mem _ hq))

lemma string_append_ne_empty_right (a : String) {b : String} (hb : b ≠ "") :
    a ++ b ≠ "" := by
  intro h
  have hd := congrArg String.data h
  rw [String.data_append] at hd
  obtain ⟨-, hb0⟩ := List.append_eq_nil.mp hd
  exact string_ne_empty_of_data_cons hb hb0

lemma string_append_ne_empty_left {a : String} (ha : a ≠ "") (b : String) :
    a ++ b ≠ "" := by
  intro h
  have hd := congrArg String.data h
  rw [String.data_append] at hd
  obtain ⟨ha0, -⟩ := List.append_eq_nil.mp hd
  exact string_ne_empty_of_data_cons ha ha0

/-- C7 counterexample: the fcategorize `getTargetDirectory` returns the
EMPTY string for the empty filename under the `name` method
(`"".charAt(0)` is `""`), and the fsystem variant's `extension` method
answers `"no-extension"`, not `"others"`, for an extensionless name. -/
theorem c7_counterexample :
    FileCategorizationService.getTargetDirectory FILE_CATEGORIES ""
      ⟨0, ⟨2024, 0⟩⟩ .name = "" ∧
    Fsystem.getTargetDirectory "README" ⟨0, ⟨2024, 0⟩⟩ .extension =
      "no-extension" := by decide

/-- C7 amended. Totality up to the one gap the counterexample exhibits:
the fcategorize `getTargetDirectory` returns a non-empty string for every
size/mtime pair and method except the `name` method on the empty
filename; the fsystem variant is non-empty on all inputs; and when no
extension pattern matches, the pattern-table categorizer (used by the
`extension` method of the fcategorize variant) falls back to `"others"`. -/
theorem c7_totality (file : String) (stats : FileStats)
    (method : GroupingMethod) :
    ((method = .name → file ≠ "") →
      FileCategorizationService.getTargetDirectory FILE_CATEGORIES file stats
        method ≠ "") ∧
    Fsystem.getTargetDirectory file stats method ≠ "" ∧
    ((∀ row ∈ FILE_CATEGORIES, testCategoryPattern row.1 file = false) →
      FileCategorizationService.getTargetDirectory FILE_CATEGORIES file stats
        .extension = "others") := by
  refine ⟨?_, ?_, ?_⟩
  · intro hname
    cases method with
      | extension =>
        exact getCategoryFromFile_ne_empty FILE_CATEGORIES (by decide) file
      | name =>
        show lowerFirstChar file ≠ ""
        unfold lowerFirstChar
        rcases hd : file.data with _ | ⟨c, rest⟩
        · exact absurd hd (string_ne_empty_of_data_cons (hname rfl))
        · exact singleton_ne_empty _
      | date =>
        show FileCategorizationService.getCategoryFromFile FILE_CATEGORIES file ++
          "/" ++ toString stats.mtime.getFullYear ++ "/" ++
          pad2 (stats.mtime.getMonth + 1) ≠ ""
        exact string_append_ne_empty_left
          (string_append_ne_empty_left
            (string_append_ne_empty_left
              (string_append_ne_empty_right _ (by decide)) _) _) _
      | size =>
        show (if stats.size < 1024 * 1024 then "small"
          else if stats.size < 100 * 1024 * 1024 then "medium" else "large") ≠ ""
        split_ifs <;> decide
  · cases method with
    | extension =>
      show (if lowerString (String.mk ((extname file).data.drop 1)) = ""
        then "no-extension"
        else lowerString (String.mk ((extname file).data.drop 1))) ≠ ""
      split_ifs with hx
      · decide
      · exact hx
    | name =>
      show (match (lastSegment file).data with
        | [] => "0"
        | c :: _ =>
          if isAZ09 c.toUpper then String.singleton c.toUpper else "other") ≠ ""
      rcases hd : (lastSegment file).data with _ | ⟨c, rest⟩
      · decide
      · dsimp only
        split_ifs
        · exact singleton_ne_empty _
        · decide
    | date =>
      show toString stats.mtime.getFullYear ++ "-" ++
        pad2 (stats.mtime.getMonth + 1) ≠ ""
      exact string_append_ne_empty_left
        (string_append_ne_empty_right _ (by decide)) _
    | size =>
      show (if stats.size < 10 * 1024 then "tiny (< 10KB)"
        else if stats.size < 100 * 1024 then "small (10-100KB)"
        else if stats.size < 1024 * 1024 then "medium (100KB-1MB)"
        else if stats.size < 10 * 1024 * 1024 then "large (1-10MB)"
        else if stats.size < 100 * 1024 * 1024 then "huge (10-100MB)"
        else "enormous (>100MB)") ≠ ""
      split_ifs <;> decide
  · intro hnone
    show FileCategorizationService.getCategoryFromFile FILE_CATEGORIES file = "others"
    exact getCategoryFromFile_eq_others _ _ hnone

theorem c7_totality_witness :
    (((GroupingMethod.name = GroupingMethod.name → ("x" : String) ≠ "") →
        FileCategorizationService.getTargetDirectory FILE_CATEGORIES "x"
          ⟨0, ⟨2024, 0⟩⟩ .name ≠ "") ∧
      Fsystem.getTargetDirectory "x" ⟨0, ⟨2024, 0⟩⟩ .name ≠ "" ∧
      ((∀ row ∈ FILE_CATEGORIES, testCategoryPattern row.1 "x" = false) →
        FileCategorizationService.getTargetDirectory FILE_CATEGORIES "x"
          ⟨0, ⟨2024, 0⟩⟩ .extension = "others")) ∧
    Fsystem.getTargetDirectory "" ⟨0, ⟨2024, 0⟩⟩ .name ≠ "" :=
  ⟨c7_totality "x" ⟨0, ⟨2024, 0⟩⟩ .name,
   (c7_totality "" ⟨0, ⟨2024, 0⟩⟩ .name).2.1⟩

/-- C8 counterexample: the fcategorize `name` method has NO "other"
bucket — a non-alphanumeric first character is returned as-is
(`"-file"` maps to `"-"`) — and the fsystem `name` method UPPER-cases the
first character (`"abc"` maps to `"A"`, not `"a"`). -/
theorem c8_counterexample :
    FileCategorizationService.getTargetDirectory FILE_CATEGORIES "-file"
      ⟨0, ⟨2024, 0⟩⟩ .name = "-" ∧
    Fsystem.getTargetDirectory "abc" ⟨0, ⟨2024, 0⟩⟩ .name = "A" := by decide

/-- C8 amended. The two cited `name`-method implementations behave
differently and neither matches the claim verbatim: the fcategorize
variant returns the lower-cased first character of the filename
unconditionally (non-alphanumeric characters included, no "other"
bucket); the fsystem variant works on the basename and returns the
UPPER-cased first character when that is alphanumeric, and the designated
`"other"` bucket otherwise. -/
theorem c8_name_method (file : String) (stats : FileStats) :
    FileCategorizationService.getTargetDirectory FILE_CATEGORIES file stats
        .name = lowerFirstChar file ∧
    ((lastSegment file).data = [] →
      Fsystem.getTargetDirectory file stats .name = "0") ∧
    (∀ c rest, (lastSegment file).data = c :: rest →
      (isAZ09 c.toUpper = false →
        Fsystem.getTargetDirectory file stats .name = "other") ∧
      (isAZ09 c.toUpper = true →
        Fsystem.getTargetDirectory file stats .name =
          String.singleton c.toUpper)) := by
  refine ⟨rfl, ?_, ?_⟩
  · intro hd
    show (match (lastSegment file).data with
      | [] => "0"
      | c :: _ =>
        if isAZ09 c.toUpper then String.singleton c.toUpper else "other") = "0"
    rw [hd]
  intro c rest hd
  constructor
  · intro hc
    show (match (lastSegment file).data with
      | [] => "0"
      | c :: _ =>
        if isAZ09 c.toUpper then String.singleton c.toUpper else "other") = "other"
    rw [hd]
    simp [hc]
  · intro hc
    show (match (lastSegment file).data with
      | [] => "0"
      | c :: _ =>
        if isAZ09 c.toUpper then String.singleton c.toUpper else "other") =
      String.singleton c.toUpper
    rw [hd]
    simp [hc]

theorem c8_name_method_witness :
    (FileCategorizationService.getTargetDirectory FILE_CATEGORIES "-file"
        ⟨0, ⟨2024, 0⟩⟩ .name = lowerFirstChar "-file" ∧
      ((lastSegment "-file").data = [] →
        Fsystem.getTargetDirectory "-file" ⟨0, ⟨2024, 0⟩⟩ .name = "0") ∧
      (∀ c rest, (lastSegment "-file").data = c :: rest →
        (isAZ09 c.toUpper = false →
          Fsystem.getTargetDirectory "-file" ⟨0, ⟨2024, 0⟩⟩ .name = "other") ∧
        (isAZ09 c.toUpper = true →
          Fsystem.getTargetDirectory "-file" ⟨0, ⟨2024, 0⟩⟩ .name =
            String.singleton c.toUpper))) ∧
    Fsystem.getTargetDirectory "" ⟨0, ⟨2024, 0⟩⟩ .name = "0" :=
  ⟨c8_name_method "-file" ⟨0, ⟨2024, 0⟩⟩,
   (c8_name_method "" ⟨0, ⟨2024, 0⟩⟩).2.1 rfl⟩

/-- C10. Skip-reason precedence in `processFile`: the `minSize`/`maxSize`
filters run before the dotfile filter, so a file that is both outside the
size range and a dotfile (with `ignoreDotfiles` set) gets exactly one
`skipped` entry, carrying the size reason (too-small taking precedence
over too-large), no mapping, and no error. -/
theorem c10_skip_precedence (opts : OrganizationOptions)
    (meta : String → FileStats) (files : Finset String)
    (filePath basePath : String) (st : OrganizationStats)
    (hin : filePath ∈ files)
    (_hdot : opts.ignoreDotfiles = true ∧
      startsWithDot (lastSegment filePath) = true)
    (hsize : (opts.minSize ≠ 0 ∧ (meta filePath).size < opts.minSize) ∨
      (opts.maxSize ≠ 0 ∧ (meta filePath).size > opts.maxSize)) :
    (NeatFolderV7.processFile opts meta files filePath basePath st).1 = none ∧
    (NeatFolderV7.processFile opts meta files filePath basePath st).2.skipped =
      st.skipped ++
        [if opts.minSize ≠ 0 ∧ (meta filePath).size < opts.minSize then
           "Size too small: " ++ filePath
         else "Size too large: " ++ filePath] ∧
    (NeatFolderV7.processFile opts meta files filePath basePath st).2.errors =
      st.errors := by
  unfold NeatFolderV7.processFile
  rw [if_neg (fun hc => hc hin)]
  by_cases hs : opts.minSize ≠ 0 ∧ (meta filePath).size < opts.minSize
  · rw [if_pos hs]
    exact ⟨rfl, by rw [if_pos hs], rfl⟩
  · have hl : opts.maxSize ≠ 0 ∧ (meta filePath).size > opts.maxSize := by
      rcases hsize with h | h
      · exact absurd h hs
      · exact h
    rw [if_neg hs, if_pos hl]
    exact ⟨rfl, by rw [if_neg hs], rfl⟩

theorem c10_skip_precedence_witness :
    (NeatFolderV7.processFile
        ⟨.extension, true, false, false, 0, 1000, 10000, false⟩
        (fun _ => ⟨1, ⟨2024, 0⟩⟩) {"/d/.hidden"} "/d/.hidden" "/d"
        emptyStats).1 = none ∧
    (NeatFolderV7.processFile
        ⟨.extension, true, false, false, 0, 1000, 10000, false⟩
        (fun _ => ⟨1, ⟨2024, 0⟩⟩) {"/d/.hidden"} "/d/.hidden" "/d"
        emptyStats).2.skipped =
      emptyStats.skipped ++
        [if (1000 : Nat) ≠ 0 ∧
            ((fun _ => (⟨1, ⟨2024, 0⟩⟩ : FileStats)) "/d/.hidden").size < 1000 then
           "Size too small: " ++ "/d/.hidden"
         else "Size too large: " ++ "/d/.hidden"] ∧
    (NeatFolderV7.processFile
        ⟨.extension, true, false, false, 0, 1000, 10000, false⟩
        (fun _ => ⟨1, ⟨2024, 0⟩⟩) {"/d/.hidden"} "/d/.hidden" "/d"
        emptyStats).2.errors = emptyStats.errors :=
  c10_skip_precedence ⟨.extension, true, false, false, 0, 1000, 10000, false⟩
    (fun _ => ⟨1, ⟨2024, 0⟩⟩) {"/d/.hidden"} "/d/.hidden" "/d" emptyStats
    (by decide) (by decide) (Or.inl (by decide))

lemma takeWhile_append_all {p : Char → Bool} {xs : List Char} (ys : List Char)
    (hxs : ∀ c ∈ xs, p c = true) :
    (xs ++ ys).takeWhile p = xs ++ ys.takeWhile p := by
  rw [List.takeWhile_append,
    if_pos (by rw [List.takeWhile_eq_self_iff.mpr hxs])]

/-- `split("/").pop()` of `a ++ "/" ++ n` is `n` when `n` has no slash. -/
lemma lastSegment_concat (a n : String) (hn : '/' ∉ n.data) :
    lastSegment (a ++ "/" ++ n) = n := by
  unfold lastSegment
  have hd : (a ++ "/" ++ n).data = a.data ++ '/' :: n.data := by
    rw [String.data_append, String.data_append,
      show "/".data = ['/'] from rfl, List.append_assoc]
    rfl
  rw [hd]
  have hrev : (a.data ++ '/' :: n.data).reverse =
      n.data.reverse ++ '/' :: a.data.reverse := by
    rw [List.reverse_append, List.reverse_cons, List.append_assoc]
    rfl
  rw [hrev, takeWhile_append_all _
    (fun c hc => by
      simp only [decide_eq_true_eq]
      intro hceq
      exact hn (by rw [← hceq]; exact List.mem_reverse.mp hc))]
  have hstop : ('/' :: a.data.reverse).takeWhile
      (fun c => decide ¬c = '/') = [] := by
    simp [List.takeWhile]
  rw [hstop, List.append_nil, List.reverse_reverse]

/-- The last path segment never contains a slash. -/
lemma lastSegment_no_slash (s : String) : '/' ∉ (lastSegment s).data := by
  unfold lastSegment
  intro hmem
  have := List.mem_takeWhile_imp (List.mem_reverse.mp hmem)
  simp at this

lemma processFile_some {opts : OrganizationOptions} {meta : String → FileStats}
    {files : Finset String} {f basePath : String} {st : OrganizationStats}
    {m : FileMapping}
    (h : (NeatFolderV7.processFile opts meta files f basePath st).1 = some m) :
    m.sourcePath = f ∧
    ∃ d, m.targetPath = basePath ++ "/" ++ d ++ "/" ++ lastSegment f := by
  unfold NeatFolderV7.processFile at h
  split_ifs at h with h1
  · dsimp only at h
    split_ifs at h with h2 h3 h4
    case neg =>
      dsimp only at h
      injection h with hm
      subst hm
      refine ⟨rfl, _, rfl⟩

/-- C4 counterexample: in one recursive organize run over `/b`, the two
distinct eligible source files `/b/a/x.pdf` and `/b/c/x.pdf` (same
basename in different subdirectories) are both assigned the target path
`/b/documents/x.pdf`: the computed mapping is not injective. -/
theorem c4_counterexample :
    (NeatFolderV7.processFile ⟨.extension, false, true, false, 0, 0, 0, false⟩
        (fun _ => ⟨5, ⟨2024, 0⟩⟩) {"/b/a/x.pdf", "/b/c/x.pdf"}
        "/b/a/x.pdf" "/b" emptyStats).1.map FileMapping.targetPath =
      some "/b/documents/x.pdf" ∧
    (NeatFolderV7.processFile ⟨.extension, false, true, false, 0, 0, 0, false⟩
        (fun _ => ⟨5, ⟨2024, 0⟩⟩) {"/b/a/x.pdf", "/b/c/x.pdf"}
        "/b/c/x.pdf" "/b" emptyStats).1.map FileMapping.targetPath =
      some "/b/documents/x.pdf" ∧
    ("/b/a/x.pdf" : String) ≠ "/b/c/x.pdf" := by decide

/-- C4 amended. The target-path computation is deterministic (it is a pure
function of the options, metadata and paths) and is injective on eligible
source files with pairwise-distinct basenames: two eligible files whose
basenames differ always get different target paths, for every grouping
method. Files sharing a basename may collide (per the counterexample). -/
theorem c4_target_injective (opts : OrganizationOptions)
    (meta : String → FileStats) (files : Finset String) (basePath f1 f2 : String)
    (st1 st2 : OrganizationStats) (m1 m2 : FileMapping)
    (h1 : (NeatFolderV7.processFile opts meta files f1 basePath st1).1 = some m1)
    (h2 : (NeatFolderV7.processFile opts meta files f2 basePath st2).1 = some m2)
    (hbase : lastSegment f1 ≠ lastSegment f2) :
    m1.targetPath ≠ m2.targetPath := by
  obtain ⟨-, d1, ht1⟩ := processFile_some h1
  obtain ⟨-, d2, ht2⟩ := processFile_some h2
  intro heq
  apply hbase
  have e1 : lastSegment m1.targetPath = lastSegment f1 := by
    rw [ht1]
    exact lastSegment_concat _ _ (lastSegment_no_slash f1)
  have e2 : lastSegment m2.targetPath = lastSegment f2 := by
    rw [ht2]
    exact lastSegment_concat _ _ (lastSegment_no_slash f2)
  rw [← e1, ← e2, heq]

theorem c4_target_injective_witness :
    (⟨"/b/x.pdf", "/b/documents/x.pdf", 5, ⟨2024, 0⟩⟩ :
        FileMapping).targetPath ≠
      (⟨"/b/y.jpg", "/b/images/y.jpg", 5, ⟨2024, 0⟩⟩ : FileMapping).targetPath :=
  c4_target_injective ⟨.extension, false, true, false, 0, 0, 0, false⟩
    (fun _ => ⟨5, ⟨2024, 0⟩⟩) {"/b/x.pdf", "/b/y.jpg"} "/b" "/b/x.pdf" "/b/y.jpg"
    emptyStats emptyStats _ _ (by decide) (by decide) (by decide)

lemma chunksList_flatten (k : Nat) (hk : 0 < k) (l : List FileMapping) :
    (NeatFolderV6.chunksList k l).flatten = l := by
  have hgen : ∀ n (l : List FileMapping), l.length ≤ n →
      (NeatFolderV6.chunksList k l).flatten = l := by
    intro n
    induction n with
    | zero =>
      intro l hl
      rw [Nat.le_zero, List.length_eq_zero] at hl
      subst hl
      simp [NeatFolderV6.chunksList]
    | succ n ih =>
      intro l hl
      match l with
      | [] => simp [NeatFolderV6.chunksList]
      | a :: tl =>
        rw [NeatFolderV6.chunksList]
        rw [if_neg (by omega)]
        rw [List.flatten_cons]
        rw [ih ((a :: tl).drop k)
          (by rw [List.length_drop]; rw [List.length_cons] at hl ⊢; omega)]
        exact List.take_append_drop k (a :: tl)
  exact hgen l.length l le_rfl

lemma runChunked_eq_runSeq (opts : OrganizationOptions) (k : Nat) (hk : 0 < k)
    (ms : List FileMapping) (acc : FSState × DirMapT × OrganizationStats) :
    NeatFolderV6.runChunked opts k ms acc = NeatFolderV6.runSeq opts ms acc := by
  unfold NeatFolderV6.runChunked
  conv_rhs => rw [← chunksList_flatten k hk ms]
  unfold NeatFolderV6.runSeq
  rw [List.foldl_flatten]

lemma moveFile_count (opts : OrganizationOptions) (m : FileMapping)
    (acc : FSState × DirMapT × OrganizationStats) :
    (NeatFolderV6.moveFile opts m acc).2.2.errors.length +
      (NeatFolderV6.moveFile opts m acc).2.2.filesProcessed =
    acc.2.2.errors.length + acc.2.2.filesProcessed + 1 := by
  unfold NeatFolderV6.moveFile
  split
  · dsimp only
    omega
  · dsimp only
    split
    · dsimp only
      omega
    · dsimp only
      rw [List.length_append, List.length_singleton]
      omega

lemma runSeq_count (opts : OrganizationOptions) (ms : List FileMapping)
    (acc : FSState × DirMapT × OrganizationStats) :
    (NeatFolderV6.runSeq opts ms acc).2.2.errors.length +
      (NeatFolderV6.runSeq opts ms acc).2.2.filesProcessed =
    acc.2.2.errors.length + acc.2.2.filesProcessed + ms.length := by
  induction ms generalizing acc with
  | nil => rfl
  | cons m rest ih =>
    show (NeatFolderV6.runSeq opts rest (NeatFolderV6.moveFile opts m acc)).2.2.errors.length +
      (NeatFolderV6.runSeq opts rest (NeatFolderV6.moveFile opts m acc)).2.2.filesProcessed = _
    rw [ih (NeatFolderV6.moveFile opts m acc), moveFile_count]
    simp
    omega

/-- C6. Per-file failure isolation in the batched move execution: (a) the
batch partitioning is semantically transparent — running the batches in
order equals the sequential run over all mappings, so a failure in one
batch never prevents later batches; (b) every mapping is attempted and
accounted for exactly once, as an error or as a processed file, so no
failure aborts the run; (c) a failing move (missing source, outside
dry-run) appends exactly its error message, leaves the file set
untouched, and does not advance the processed counter. -/
theorem c6_failure_isolation (opts : OrganizationOptions) (k : Nat)
    (ms : List FileMapping) (acc : FSState × DirMapT × OrganizationStats)
    (m : FileMapping) (hk : 0 < k) :
    NeatFolderV6.runChunked opts k ms acc = NeatFolderV6.runSeq opts ms acc ∧
    ((NeatFolderV6.runSeq opts ms acc).2.2.errors.length +
      (NeatFolderV6.runSeq opts ms acc).2.2.filesProcessed =
      acc.2.2.errors.length + acc.2.2.filesProcessed + ms.length) ∧
    (opts.dryRun = false → m.sourcePath ∉ acc.1.files →
      (NeatFolderV6.moveFile opts m acc).2.2.errors =
        acc.2.2.errors ++ ["Failed to move " ++ m.sourcePath] ∧
      (NeatFolderV6.moveFile opts m acc).1.files = acc.1.files ∧
      (NeatFolderV6.moveFile opts m acc).2.2.filesProcessed =
        acc.2.2.filesProcessed ∧
      NeatFolderV6.runSeq opts (m :: ms) acc =
        NeatFolderV6.runSeq opts ms (NeatFolderV6.moveFile opts m acc)) := by
  refine ⟨runChunked_eq_runSeq opts k hk ms acc, runSeq_count opts ms acc, ?_⟩
  intro hdry hsrc
  refine ⟨?_, ?_, ?_, rfl⟩ <;>
    · unfold NeatFolderV6.moveFile
      rw [if_neg (by rw [hdry]; simp), if_neg hsrc]

theorem c6_failure_isolation_witness :
    NeatFolderV6.runChunked ⟨.extension, false, false, false, 0, 0, 0, false⟩ 2
        [⟨"/b/x.pdf", "/b/documents/x.pdf", 5, ⟨2024, 0⟩⟩]
        (⟨{"/b/x.pdf"}, ∅⟩, [], emptyStats) =
      NeatFolderV6.runSeq ⟨.extension, false, false, false, 0, 0, 0, false⟩
        [⟨"/b/x.pdf", "/b/documents/x.pdf", 5, ⟨2024, 0⟩⟩]
        (⟨{"/b/x.pdf"}, ∅⟩, [], emptyStats) ∧
    ((NeatFolderV6.runSeq ⟨.extension, false, false, false, 0, 0, 0, false⟩
        [⟨"/b/x.pdf", "/b/documents/x.pdf", 5, ⟨2024, 0⟩⟩]
        (⟨{"/b/x.pdf"}, ∅⟩, [], emptyStats)).2.2.errors.length +
      (NeatFolderV6.runSeq ⟨.extension, false, false, false, 0, 0, 0, false⟩
        [⟨"/b/x.pdf", "/b/documents/x.pdf", 5, ⟨2024, 0⟩⟩]
        (⟨{"/b/x.pdf"}, ∅⟩, [], emptyStats)).2.2.filesProcessed =
      emptyStats.errors.length + emptyStats.filesProcessed + 1) ∧
    (((⟨.extension, false, false, false, 0, 0, 0, false⟩ :
        OrganizationOptions)).dryRun = false →
      (⟨"/b/missing.txt", "/b/documents/missing.txt", 1, ⟨2024, 0⟩⟩ :
        FileMapping).sourcePath ∉ ({"/b/x.pdf"} : Finset String) →
      (NeatFolderV6.moveFile ⟨.extension, false, false, false, 0, 0, 0, false⟩
          ⟨"/b/missing.txt", "/b/documents/missing.txt", 1, ⟨2024, 0⟩⟩
          (⟨{"/b/x.pdf"}, ∅⟩, [], emptyStats)).2.2.errors =
        emptyStats.errors ++ ["Failed to move " ++ "/b/missing.txt"] ∧
      (NeatFolderV6.moveFile ⟨.extension, false, false, false, 0, 0, 0, false⟩
          ⟨"/b/missing.txt", "/b/documents/missing.txt", 1, ⟨2024, 0⟩⟩
          (⟨{"/b/x.pdf"}, ∅⟩, [], emptyStats)).1.files = {"/b/x.pdf"} ∧
      (NeatFolderV6.moveFile ⟨.extension, false, false, false, 0, 0, 0, false⟩
          ⟨"/b/missing.txt", "/b/documents/missing.txt", 1, ⟨2024, 0⟩⟩
          (⟨{"/b/x.pdf"}, ∅⟩, [], emptyStats)).2.2.filesProcessed =
        emptyStats.filesProcessed ∧
      NeatFolderV6.runSeq ⟨.extension, false, false, false, 0, 0, 0, false⟩
          (⟨"/b/missing.txt", "/b/documents/missing.txt", 1, ⟨2024, 0⟩⟩ ::
            [⟨"/b/x.pdf", "/b/documents/x.pdf", 5, ⟨2024, 0⟩⟩])
          (⟨{"/b/x.pdf"}, ∅⟩, [], emptyStats) =
        NeatFolderV6.runSeq ⟨.extension, false, false, false, 0, 0, 0, false⟩
          [⟨"/b/x.pdf", "/b/documents/x.pdf", 5, ⟨2024, 0⟩⟩]
          (NeatFolderV6.moveFile ⟨.extension, false, false, false, 0, 0, 0, false⟩
            ⟨"/b/missing.txt", "/b/documents/missing.txt", 1, ⟨2024, 0⟩⟩
            (⟨{"/b/x.pdf"}, ∅⟩, [], emptyStats))) :=
  c6_failure_isolation ⟨.extension, false, false, false, 0, 0, 0, false⟩ 2
    [⟨"/b/x.pdf", "/b/documents/x.pdf", 5, ⟨2024, 0⟩⟩]
    (⟨{"/b/x.pdf"}, ∅⟩, [], emptyStats)
    ⟨"/b/missing.txt", "/b/documents/missing.txt", 1, ⟨2024, 0⟩⟩ (by decide)

lemma moveFileV7_dry {opts : OrganizationOptions} (hdry : opts.dryRun = true)
    (m : FileMapping) (acc : FSState × DirMapT × OrganizationStats) :
    (NeatFolderV7.moveFile opts m acc).1 = acc.1 := by
  unfold NeatFolderV7.moveFile
  rw [if_pos hdry]

lemma processFileMappings_dry {opts : OrganizationOptions}
    (hdry : opts.dryRun = true) (ms : List FileMapping)
    (acc : FSState × DirMapT × OrganizationStats) :
    (NeatFolderV7.processFileMappings opts ms acc).1 = acc.1 := by
  induction ms generalizing acc with
  | nil => rfl
  | cons m rest ih =>
    show (NeatFolderV7.processFileMappings opts rest
      (NeatFolderV7.moveFile opts m acc)).1 = acc.1
    rw [ih (NeatFolderV7.moveFile opts m acc), moveFileV7_dry hdry]

/-- C5. Dry-run purity: an `organize` call with `dryRun = true` changes
nothing observable — no file is moved, no directory is created, and no
history or file-operation record is inserted; the whole state (filesystem
and store) is returned unchanged. -/
theorem c5_dry_run_purity (opts : OrganizationOptions)
    (meta : String → FileStats) (basePath : String) (allFiles : List String)
    (s : St) (hdry : opts.dryRun = true) :
    NeatFolderV7.organize opts meta basePath allFiles s = s := by
  unfold NeatFolderV7.organize
  dsimp only
  split_ifs with h1
  · rfl
  · rw [processFileMappings_dry hdry]

theorem c5_dry_run_purity_witness :
    NeatFolderV7.organize ⟨.extension, false, false, true, 0, 0, 0, false⟩
      (fun _ => ⟨5, ⟨2024, 0⟩⟩) "/d" ["/d/a.txt"] initSt = initSt :=
  c5_dry_run_purity ⟨.extension, false, false, true, 0, 0, 0, false⟩
    (fun _ => ⟨5, ⟨2024, 0⟩⟩) "/d" ["/d/a.txt"] initSt (by decide)

lemma moveFileV7_files {opts : OrganizationOptions} (hdry : opts.dryRun = false)
    (m : FileMapping) (acc : FSState × DirMapT × OrganizationStats) :
    (NeatFolderV7.moveFile opts m acc).1.files = mvStep acc.1.files m := by
  unfold NeatFolderV7.moveFile mvStep
  rw [if_neg (by rw [hdry]; simp)]
  split_ifs with h <;> rfl

lemma processFileMappings_files {opts : OrganizationOptions}
    (hdry : opts.dryRun = false) (ms : List FileMapping)
    (acc : FSState × DirMapT × OrganizationStats) :
    (NeatFolderV7.processFileMappings opts ms acc).1.files =
      moveAll ms acc.1.files := by
  induction ms generalizing acc with
  | nil => rfl
  | cons m rest ih =>
    show (NeatFolderV7.processFileMappings opts rest
      (NeatFolderV7.moveFile opts m acc)).1.files = _
    rw [ih (NeatFolderV7.moveFile opts m acc), moveAll_cons,
      moveFileV7_files hdry]

lemma undoMoveStep_files (acc : FSState × Nat) (m : FileMapping) :
    (undoMoveStep acc m).1.files = mvUnstep acc.1.files m := by
  unfold undoMoveStep mvUnstep
  split_ifs with h <;> rfl

lemma redoMoveStep_files (acc : FSState × Nat) (m : FileMapping) :
    (redoMoveStep acc m).1.files = mvStep acc.1.files m := by
  unfold redoMoveStep mvStep
  split_ifs with h <;> rfl

lemma foldl_undoMoveStep_files (l : List FileMapping) :
    ∀ (fsys : FSState) (c : Nat),
      (l.foldl undoMoveStep (fsys, c)).1.files = l.foldl mvUnstep fsys.files := by
  induction l with
  | nil => intro fsys c; rfl
  | cons m tl ih =>
    intro fsys c
    show (tl.foldl undoMoveStep (undoMoveStep (fsys, c) m)).1.files = _
    rw [List.foldl_cons]
    have := ih (undoMoveStep (fsys, c) m).1 (undoMoveStep (fsys, c) m).2
    rw [← undoMoveStep_files (fsys, c) m]
    exact this

lemma foldl_redoMoveStep_files (l : List FileMapping) :
    ∀ (fsys : FSState) (c : Nat),
      (l.foldl redoMoveStep (fsys, c)).1.files = l.foldl mvStep fsys.files := by
  induction l with
  | nil => intro fsys c; rfl
  | cons m tl ih =>
    intro fsys c
    show (tl.foldl redoMoveStep (redoMoveStep (fsys, c) m)).1.files = _
    rw [List.foldl_cons]
    have := ih (redoMoveStep (fsys, c) m).1 (redoMoveStep (fsys, c) m).2
    rw [← redoMoveStep_files (fsys, c) m]
    exact this

lemma undoMovesFS_files (ms : List FileMapping) (fsys : FSState) :
    (undoMovesFS ms fsys).1.files = undoAll ms fsys.files :=
  foldl_undoMoveStep_files ms.reverse fsys 0

lemma redoMovesFS_files (ms : List FileMapping) (fsys : FSState) :
    (redoMovesFS ms fsys).1.files = moveAll ms fsys.files :=
  foldl_redoMoveStep_files ms fsys 0

lemma createFileMappings_sources (opts : OrganizationOptions)
    (meta : String → FileStats) (files : Finset String) (basePath : String) :
    ∀ (paths : List String) (st : OrganizationStats),
      ((NeatFolderV7.createFileMappings opts meta files basePath paths
        st).1.map FileMapping.sourcePath).Sublist paths := by
  intro paths
  induction paths with
  | nil => intro st; simp [NeatFolderV7.createFileMappings]
  | cons p rest ih =>
    intro st
    rw [NeatFolderV7.createFileMappings]
    rcases hpf : NeatFolderV7.processFile opts meta files p basePath st
      with ⟨om, st'⟩
    rcases om with _ | m
    · exact List.Sublist.cons p (ih st')
    · have hsrc : m.sourcePath = p :=
        (processFile_some (by rw [hpf])).1
      dsimp only
      rw [List.map_cons, hsrc]
      exact List.Sublist.cons₂ p (ih st')

/-- Characterization of a successful explicit-id `undo`: with the guards
clear, it performs the reverse move loop and logs the reversal. -/
lemma undo_success_of {s : St} (hwf : wf s) {top : HRecord}
    (hmem : top ∈ s.history) {i : Nat} (hid : top.id = i) (hi : i ≠ 0)
    (hrev : top.isReversed = false)
    (hguard : (s.history.any fun r =>
      r.isReversed && r.originalOperationId == some top.id) = false) :
    undo (some i) s =
      (true, (logUndoOperation top (undoMovesFS top.fileMappings s.fsys).2
        { s with fsys := (undoMovesFS top.fileMappings s.fsys).1 }).2) := by
  unfold undo
  have hres : resolveUndoTarget (some i) s = getOperationById s i := by
    simp [resolveUndoTarget, hi]
  rw [hres, getOperationById_eq_some hwf.2.2.1 hmem hid]
  dsimp only
  rw [if_neg (by simp [hrev]), if_neg (by simp [hguard])]

/-- C2. Round-trip: running `organize` (non-dry, at least one mapping) on a
well-formed state, then `undo` of that run, then `redo` of that undo,
returns `true` from both calls and restores the file set to exactly the
post-organize layout. -/
theorem c2_round_trip (opts : OrganizationOptions) (meta : String → FileStats)
    (basePath : String) (allFiles : List String) (s₀ : St) (hwf : wf s₀)
    (hnodup : allFiles.Nodup) (hdry : opts.dryRun = false)
    (hne : (NeatFolderV7.createFileMappings opts meta s₀.fsys.files basePath
      allFiles emptyStats).1 ≠ []) :
    ∃ s₂ s₃,
      undo (some s₀.nextId)
        (NeatFolderV7.organize opts meta basePath allFiles s₀) = (true, s₂) ∧
      redo (some (NeatFolderV7.organize opts meta basePath allFiles
        s₀).nextId) s₂ = (true, s₃) ∧
      s₃.fsys.files =
        (NeatFolderV7.organize opts meta basePath allFiles s₀).fsys.files := by
  set mapped := NeatFolderV7.createFileMappings opts meta s₀.fsys.files
    basePath allFiles emptyStats with hmapped
  set ms := mapped.1 with hms
  have hnods : (ms.map FileMapping.sourcePath).Nodup :=
    hnodup.sublist (createFileMappings_sources opts meta s₀.fsys.files
      basePath allFiles emptyStats)
  set run := NeatFolderV7.processFileMappings opts ms (s₀.fsys, [], mapped.2)
    with hrun
  have horg0 : NeatFolderV7.organize opts meta basePath allFiles s₀ =
      (logOrganization basePath opts.method
        (NeatFolderV7.buildDirectoryStructure basePath allFiles)
        run.2.1 ms run.2.2 0 { s₀ with fsys := run.1 }).2 := by
    unfold NeatFolderV7.organize
    rw [← hmapped]
    dsimp only
    rw [if_neg (by simpa [List.isEmpty_iff] using hne),
      if_neg (by rw [hdry]; simp)]
  obtain ⟨s₁, hs₁⟩ :
      ∃ x : St, x = NeatFolderV7.organize opts meta basePath allFiles s₀ :=
    ⟨_, rfl⟩
  rw [← hs₁]
  have horg : s₁ = (logOrganization basePath opts.method
      (NeatFolderV7.buildDirectoryStructure basePath allFiles)
      run.2.1 ms run.2.2 0 { s₀ with fsys := run.1 }).2 := hs₁.trans horg0
  obtain ⟨orgRec, e_hist, e_id, e_rev, e_maps, e_orig⟩ :
      ∃ R, s₁.history = s₀.history ++ [R] ∧ R.id = s₀.nextId ∧
        R.isReversed = false ∧ R.fileMappings = ms ∧
        R.originalOperationId = none := by
    rw [horg]
    exact ⟨_, rfl, rfl, rfl, rfl, rfl⟩
  have e_next : s₁.nextId = s₀.nextId + 1 := by rw [horg]; rfl
  have e_files : s₁.fsys.files = moveAll ms s₀.fsys.files := by
    rw [horg]
    show run.1.files = _
    rw [hrun, processFileMappings_files hdry]
  have hwf₁ : wf s₁ := by
    rw [horg]
    exact wf_logOrganization _ _ _ _ _ _ _ hwf
  have hmem₁ : orgRec ∈ s₁.history := by
    rw [e_hist]
    exact List.mem_append_right _ (List.mem_singleton_self _)
  have hi0 : s₀.nextId ≠ 0 := by
    have := hwf.1
    omega
  have hguard : (s₁.history.any fun r =>
      r.isReversed && r.originalOperationId == some orgRec.id) = false := by
    rw [List.any_eq_false]
    intro r hr
    rw [e_hist] at hr
    rcases List.mem_append.mp hr with hr | hr
    · simp only [Bool.and_eq_true, beq_iff_eq, not_and]
      intro hrrev hrorig
      obtain ⟨o, ho, hoe⟩ := hwf.2.2.2 r hr orgRec.id hrorig
      have := (hwf.2.1 o ho).2
      rw [hoe, e_id] at this
      omega
    · rcases List.mem_singleton.mp hr with rfl
      simp [e_rev]
  have hundo := undo_success_of hwf₁ hmem₁ e_id hi0 e_rev hguard
  set s₂ := (logUndoOperation orgRec
    (undoMovesFS orgRec.fileMappings s₁.fsys).2
    { s₁ with fsys := (undoMovesFS orgRec.fileMappings s₁.fsys).1 }).2
    with hs₂
  obtain ⟨undoRec, u_hist, u_id, u_rev, u_orig⟩ :
      ∃ R, s₂.history = s₁.history ++ [R] ∧ R.id = s₁.nextId ∧
        R.isReversed = true ∧ R.originalOperationId = some orgRec.id := by
    rw [hs₂]
    exact ⟨_, rfl, rfl, rfl, rfl⟩
  have u_files : s₂.fsys.files = undoAll ms s₁.fsys.files := by
    rw [hs₂]
    show (undoMovesFS orgRec.fileMappings s₁.fsys).1.files = _
    rw [undoMovesFS_files, e_maps]
  have hwf₂ : wf s₂ := by
    rw [hs₂]
    exact wf_logUndoOperation hwf₁ _ ⟨orgRec, hmem₁, rfl⟩
  have humem₂ : undoRec ∈ s₂.history := by
    rw [u_hist]
    exact List.mem_append_right _ (List.mem_singleton_self _)
  have homem₂ : orgRec ∈ s₂.history := by
    rw [u_hist]
    exact List.mem_append_left _ hmem₁
  have hu0 : undoRec.id ≠ 0 := by
    rw [u_id, e_next]
    omega
  have ho0 : orgRec.id ≠ 0 := by
    rw [e_id]
    exact hi0
  have hredo := redo_success_of hwf₂ humem₂ hu0 u_rev u_orig ho0 homem₂ rfl
  rw [u_id] at hredo
  refine ⟨s₂, _, hundo, hredo, ?_⟩
  show (redoMovesFS orgRec.fileMappings s₂.fsys).1.files = s₁.fsys.files
  rw [redoMovesFS_files, e_maps, u_files, e_files,
    moveAll_roundtrip ms hnods]

/-- A fresh logger state whose filesystem holds one file to organize. -/
def sampleFsSt : St :=
  { history := [], fileOps := [], nextId := 1, clock := 0,
    fsys := ⟨{"/d/a.pdf"}, ∅⟩ }

theorem c2_round_trip_witness :
    ∃ s₂ s₃,
      undo (some sampleFsSt.nextId)
        (NeatFolderV7.organize ⟨.extension, false, false, false, 0, 0, 0, false⟩
          (fun _ => ⟨5, ⟨2024, 0⟩⟩) "/d" ["/d/a.pdf"] sampleFsSt) =
        (true, s₂) ∧
      redo (some (NeatFolderV7.organize
          ⟨.extension, false, false, false, 0, 0, 0, false⟩
          (fun _ => ⟨5, ⟨2024, 0⟩⟩) "/d" ["/d/a.pdf"] sampleFsSt).nextId)
        s₂ = (true, s₃) ∧
      s₃.fsys.files =
        (NeatFolderV7.organize ⟨.extension, false, false, false, 0, 0, 0, false⟩
          (fun _ => ⟨5, ⟨2024, 0⟩⟩) "/d" ["/d/a.pdf"] sampleFsSt).fsys.files :=
  c2_round_trip ⟨.extension, false, false, false, 0, 0, 0, false⟩
    (fun _ => ⟨5, ⟨2024, 0⟩⟩) "/d" ["/d/a.pdf"] sampleFsSt
    (by
      refine ⟨by decide, ?_, by decide, ?_⟩
      · intro r hr
        simp [sampleFsSt] at hr
      · intro r hr
        simp [sampleFsSt] at hr)
    (by decide) (by decide) (by decide)
